import Mathlib

/-!
Shallow embedding of the DaftCitadel audio engine core
(`src/audio-engine`): the real-time scheduler ring buffer, the render
clock, the scene graph (topology rebuild, mutation API, render pass) and
the DSP node family members the verified properties talk about.

Modelling conventions:
* C++ `double`/`float` sample arithmetic is modelled over `ℚ` (exact
  rationals); where only the finiteness of a `double` matters, a value is
  modelled by `Dbl`, a rational payload plus a finiteness flag.
* `std::uint64_t`/`std::size_t` counters are modelled by `Nat`; the claims
  under study operate far below the wrap-around point, so modular
  reduction is not material to any of them.
* `std::unordered_map` containers are modelled by association lists kept
  in insertion order (a deterministic refinement of the container's
  unspecified iteration order).
* Raw `DSPNode*` pointers are modelled by natural-number addresses into
  an explicit heap, so dangling captures are observable.
* Fallible C++ paths (`throw`) are modelled with `Except`.
-/

namespace DaftCitadel

/-- Models a C++ `double` as carried through parameter APIs: an exact
rational payload plus a finiteness flag (`finite = false` stands for a NaN
or an infinity, for which no rational payload is meaningful). -/
structure Dbl where
  val : ℚ
  finite : Bool
deriving DecidableEq

/-- `std::isfinite` on the modelled double. -/
def Dbl.isFinite (d : Dbl) : Bool := d.finite

/-- `daft::audio::AudioBufferView`: a borrowed block of `channels × frames`
samples. `data` holds one row per channel; each row has `frames` samples. -/
structure BufView where
  frames : Nat
  data : List (List ℚ)
deriving DecidableEq

namespace BufView

/-- `AudioBufferView::channelCount`. -/
def channels (v : BufView) : Nat := v.data.length

/-- `AudioBufferView::fill`: writes `x` to every sample of every channel. -/
def fill (v : BufView) (x : ℚ) : BufView :=
  ⟨v.frames, v.data.map fun _ => List.replicate v.frames x⟩

/-- `AudioBufferView::addBufferInPlace`: elementwise `dst += src`
(shapes agree at every call site reached in range). -/
def addBufferInPlace (v other : BufView) : BufView :=
  ⟨v.frames, List.zipWith (fun d s => List.zipWith (· + ·) d s) v.data other.data⟩

/-- Read the sample of channel `ch` at frame `i` (0 outside the view). -/
def sample (v : BufView) (ch i : Nat) : ℚ :=
  (v.data.getD ch []).getD i 0

/-- Write the sample of channel `ch` at frame `i` (no-op outside the view),
modelling `buffer.channel(ch)[i] = x`. -/
def setSample (v : BufView) (ch i : Nat) (x : ℚ) : BufView :=
  ⟨v.frames, v.data.set ch ((v.data.getD ch []).set i x)⟩

end BufView

/-- `daft::audio::RenderClock` (Clock.h): sample rate, block size and the
monotone frame counter. -/
structure RenderClock where
  sampleRate : ℚ
  framesPerBuffer : Nat
  frameTime : Nat
deriving DecidableEq

/-- `RenderClock::RenderClock`: rejects non-positive sample rate or zero
buffer size (`std::invalid_argument`). -/
def mkRenderClock (sampleRate : ℚ) (framesPerBuffer : Nat) : Except Unit RenderClock :=
  if sampleRate ≤ 0 ∨ framesPerBuffer = 0 then .error ()
  else .ok ⟨sampleRate, framesPerBuffer, 0⟩

/-- `RenderClock::advanceBy`. -/
def RenderClock.advanceBy (c : RenderClock) (frames : Nat) : RenderClock :=
  { c with frameTime := c.frameTime + frames }

/-- `RenderClock::advance`. -/
def RenderClock.advance (c : RenderClock) : RenderClock :=
  c.advanceBy c.framesPerBuffer

/-- `RenderClock::setFramesPerBuffer`: throws `std::invalid_argument` when
the requested size is zero. -/
def RenderClock.setFramesPerBuffer (c : RenderClock) (n : Nat) : Except Unit RenderClock :=
  if n = 0 then .error () else .ok { c with framesPerBuffer := n }

/-- `daft::audio::ScheduledEvent`: a trigger frame plus an optional
callback payload (`none` models an empty `std::function`). The payload
type is generic: unit tests store plain thunks while the scene graph
stores closures capturing a node pointer. -/
structure ScheduledEvent (α : Type) where
  frame : Nat
  callback : Option α
deriving DecidableEq

/-- `daft::audio::RealTimeScheduler<MaxEvents>`: a ring buffer of
`MaxEvents + 1` slots with producer write index and consumer read index.
`cap` stands for the template parameter `MaxEvents`. -/
structure RealTimeScheduler (α : Type) where
  events : List (ScheduledEvent α)
  writeIndex : Nat
  readIndex : Nat
deriving DecidableEq

namespace RealTimeScheduler

/-- `RealTimeScheduler::increment`: advance an index modulo
`capacity_ = cap + 1`. -/
def increment (cap value : Nat) : Nat := (value + 1) % (cap + 1)

/-- A freshly constructed scheduler: default-initialised slot array and
both indices at zero. -/
def init (α : Type) (cap : Nat) : RealTimeScheduler α :=
  ⟨List.replicate (cap + 1) ⟨0, none⟩, 0, 0⟩

/-- `RealTimeScheduler::schedule`: fails (returning `false` and leaving
the state untouched) when the incremented write index would collide with
the read index; otherwise stores the event and publishes the new write
index. -/
def schedule (cap : Nat) (s : RealTimeScheduler α) (event : ScheduledEvent α) :
    Bool × RealTimeScheduler α :=
  let write := s.writeIndex
  let read := s.readIndex
  let next := increment cap write
  if next = read then (false, s)
  else (true, { s with events := s.events.set write event, writeIndex := next })

/-- The loop body of `RealTimeScheduler::dispatchDueEvents`, with `now`
read once before the loop. Each iteration stops when the queue is empty or
the head event's frame is in the future; otherwise it pops the head
(collecting it into `acc`) and publishes the advanced read index. The C++
`while (true)` loop is given the explicit fuel `cap + 1`, which the
well-formedness invariant proves sufficient (a reachable queue never holds
more than `cap` events). -/
def dispatchLoop (cap now : Nat) :
    Nat → RealTimeScheduler α → List (ScheduledEvent α) →
      RealTimeScheduler α × List (ScheduledEvent α)
  | 0, s, acc => (s, acc)
  | fuel + 1, s, acc =>
    if s.readIndex = s.writeIndex then (s, acc)
    else
      let event := s.events.getD s.readIndex ⟨0, none⟩
      if now < event.frame then (s, acc)
      else
        dispatchLoop cap now fuel
          { s with readIndex := increment cap s.readIndex } (acc ++ [event])

/-- `RealTimeScheduler::dispatchDueEvents`: returns the updated scheduler
together with the list of popped events in pop order. An event whose
`callback` is `none` is popped silently; one whose `callback` is present
is invoked by the caller of the model. -/
def dispatchDueEvents (cap now : Nat) (s : RealTimeScheduler α) :
    RealTimeScheduler α × List (ScheduledEvent α) :=
  dispatchLoop cap now (cap + 1) s []

/-- Ghost abstraction: the number of undispatched events held by the ring. -/
def pending (cap : Nat) (s : RealTimeScheduler α) : Nat :=
  (s.writeIndex + (cap + 1) - s.readIndex) % (cap + 1)

/-- Ghost abstraction: the pending events in queue order, read index first. -/
def queueList (cap : Nat) (s : RealTimeScheduler α) : List (ScheduledEvent α) :=
  (List.range (pending cap s)).map
    (fun i => s.events.getD ((s.readIndex + i) % (cap + 1)) ⟨0, none⟩)

/-- Structural well-formedness of a ring state: both indices in range and
the slot array of full capacity. Every reachable state satisfies it. -/
def Wf (cap : Nat) (s : RealTimeScheduler α) : Prop :=
  s.readIndex < cap + 1 ∧ s.writeIndex < cap + 1 ∧ s.events.length = cap + 1

end RealTimeScheduler

/-! ### Scheduler run machinery

A run interleaves the control-thread producer (`schedule`), the audio
clock (`advanceBy`) and the audio-thread consumer (`dispatchDueEvents`),
mirroring `tests/SchedulerTests.cpp`. `accepted` and `poppedLog` are ghost
logs used only to state properties. -/

/-- One step of a scheduler run. -/
inductive SchedOp (α : Type)
  | schedule (event : ScheduledEvent α)
  | advanceBy (frames : Nat)
  | dispatch

/-- State of a scheduler run: the clock, the ring, and the ghost logs. -/
structure SchedRunState (α : Type) where
  clock : RenderClock
  sched : RealTimeScheduler α
  accepted : List (ScheduledEvent α)
  poppedLog : List (ScheduledEvent α × Nat)

/-- Apply one run step. A `dispatch` records every popped event paired
with the frame time observed at the start of that dispatch call. -/
def schedRunStep (cap : Nat) (s : SchedRunState α) : SchedOp α → SchedRunState α
  | .schedule e =>
    let r := RealTimeScheduler.schedule cap s.sched e
    { s with
      sched := r.2
      accepted := if r.1 then s.accepted ++ [e] else s.accepted }
  | .advanceBy n => { s with clock := s.clock.advanceBy n }
  | .dispatch =>
    let r := RealTimeScheduler.dispatchDueEvents cap s.clock.frameTime s.sched
    { s with
      sched := r.1
      poppedLog := s.poppedLog ++ r.2.map (fun e => (e, s.clock.frameTime)) }

/-- Run a whole op sequence from a fresh scheduler attached to `clock`. -/
def schedRun (α : Type) (cap : Nat) (clock : RenderClock) (ops : List (SchedOp α)) :
    SchedRunState α :=
  ops.foldl (schedRunStep cap) ⟨clock, RealTimeScheduler.init α cap, [], []⟩

/-- Frames of the events actually invoked during a run, in invocation
order (popped events whose `std::function` callback is non-empty). -/
def invokedFrames (s : SchedRunState α) : List Nat :=
  (s.poppedLog.filter fun p => p.1.callback.isSome).map fun p => p.1.frame

/-- Frames passed to `schedule`, in call order (the producer's sequence). -/
def scheduledFrames (ops : List (SchedOp α)) : List Nat :=
  ops.filterMap fun o =>
    match o with
    | .schedule e => some e.frame
    | _ => none

/-! ### DSP node family -/

/-- `daft::audio::GainNode`: the base-class sample rate plus the gain
parameter. The gain is kept as a `Dbl` because `setParameter` stores the
raw double, finite or not. -/
structure GainNode where
  sampleRate : ℚ
  gain : Dbl
deriving DecidableEq

/-- A default-constructed `GainNode` (`sampleRate_ = 48000`, `gain_ = 1.0`). -/
def mkGainNode : GainNode := ⟨48000, ⟨1, true⟩⟩

/-- `GainNode::setParameter`: stores the value under the name `"gain"`
with no finiteness check; every other name is ignored. -/
def GainNode.setParameter (n : GainNode) (name : String) (value : Dbl) : GainNode :=
  if name = "gain" then { n with gain := value } else n

/-- `ClipPlayerNode::ClipBufferData`. A channel pointer that is null is
modelled by `none`; a valid pointer by the sample row it points at. -/
structure ClipBufferData where
  key : String
  sampleRate : ℚ
  frameCount : Nat
  channels : List (Option (List ℚ))
deriving DecidableEq

/-- `ClipBufferData::channelCount`. -/
def ClipBufferData.channelCount (d : ClipBufferData) : Nat := d.channels.length

/-- `ClipBufferData::clear`. -/
def ClipBufferData.clear : ClipBufferData := ⟨"", 0, 0, []⟩

/-- `ClipBufferData::empty`. -/
def ClipBufferData.isEmpty (d : ClipBufferData) : Bool :=
  d.frameCount == 0 || d.channels.isEmpty

/-- `daft::audio::ClipPlayerNode` state. -/
structure ClipPlayerNode where
  sampleRate : ℚ
  clipBuffer : ClipBufferData
  startFrame : Nat
  endFrame : Nat
  fadeInFrames : Nat
  fadeOutFrames : Nat
  gain : ℚ
  declaredBufferSampleRate : ℚ
  declaredBufferFrames : Nat
  declaredBufferChannels : Nat
  processedFrames : Nat
deriving DecidableEq

/-- `ClipPlayerNode::prepare`. -/
def ClipPlayerNode.prepare (n : ClipPlayerNode) (sampleRate : ℚ) : ClipPlayerNode :=
  { n with sampleRate := sampleRate, processedFrames := 0 }

/-- `ClipPlayerNode::reset`. -/
def ClipPlayerNode.reset (n : ClipPlayerNode) : ClipPlayerNode :=
  { n with processedFrames := 0 }

/-- `ClipPlayerNode::sanitizeFrameValue`: non-finite or non-positive
doubles become 0, others round half-up (the `uint64` clamp is immaterial
at the modelled magnitudes). -/
def sanitizeFrameValue (value : Dbl) : Nat :=
  if !value.isFinite then 0
  else if value.val ≤ 0 then 0
  else (⌊value.val + 1 / 2⌋).toNat

/-- `ClipPlayerNode::sanitizeCountValue` (same sanitisation). -/
def sanitizeCountValue (value : Dbl) : Nat :=
  if !value.isFinite || value.val ≤ 0 then 0
  else (⌊value.val + 1 / 2⌋).toNat

/-- `ClipPlayerNode::setParameter`. -/
def ClipPlayerNode.setParameter (n : ClipPlayerNode) (name : String) (value : Dbl) :
    ClipPlayerNode :=
  if name = "startframe" then { n with startFrame := sanitizeFrameValue value }
  else if name = "endframe" then { n with endFrame := sanitizeFrameValue value }
  else if name = "fadeinframes" then { n with fadeInFrames := sanitizeCountValue value }
  else if name = "fadeoutframes" then { n with fadeOutFrames := sanitizeCountValue value }
  else if name = "gain" then
    if value.isFinite then { n with gain := value.val } else n
  else if name = "buffersamplerate" then
    { n with declaredBufferSampleRate := if value.isFinite ∧ 0 < value.val then value.val else 0 }
  else if name = "bufferchannels" then { n with declaredBufferChannels := sanitizeCountValue value }
  else if name = "bufferframes" then { n with declaredBufferFrames := sanitizeFrameValue value }
  else n

/-- The body of the frame loop of `ClipPlayerNode::process` for one
`frameIndex`: skip frames outside `[startFrame, effectiveEnd)`, apply the
fade-in and fade-out amplitude factors, and overwrite each output channel
with the clip sample scaled by the amplitude. -/
def ClipPlayerNode.writeFrame (n : ClipPlayerNode)
    (effectiveEnd playbackFrames fadeOutStart outputChannels : Nat)
    (buffer : BufView) (frameIndex : Nat) : BufView :=
  let absoluteFrame := n.processedFrames + frameIndex
  if absoluteFrame < n.startFrame ∨ effectiveEnd ≤ absoluteFrame then buffer
  else
    let bufferFrame := absoluteFrame - n.startFrame
    if n.clipBuffer.frameCount ≤ bufferFrame then buffer
    else
      let amplitude :=
        if 0 < n.fadeInFrames ∧ absoluteFrame < n.startFrame + n.fadeInFrames then
          n.gain * (((bufferFrame : ℚ) + 1) / (n.fadeInFrames : ℚ))
        else n.gain
      let amplitude :=
        if 0 < n.fadeOutFrames ∧ fadeOutStart ≤ absoluteFrame then
          let remaining : Nat := effectiveEnd - absoluteFrame
          let divisor : Nat := max 1 (min n.fadeOutFrames playbackFrames)
          amplitude * ((remaining : ℚ) / (divisor : ℚ))
        else amplitude
      (List.range outputChannels).foldl
        (fun buf channel =>
          let sourceChannel :=
            if n.clipBuffer.channelCount = 1 then 0
            else min channel (n.clipBuffer.channelCount - 1)
          match n.clipBuffer.channels.getD sourceChannel none with
          | none => buf
          | some source =>
            buf.setSample channel frameIndex (source.getD bufferFrame 0 * amplitude))
        buffer

/-- `ClipPlayerNode::process`. -/
def ClipPlayerNode.process (n : ClipPlayerNode) (buffer : BufView) :
    ClipPlayerNode × BufView :=
  let frameCount := buffer.frames
  if frameCount = 0 then (n, buffer)
  else if n.clipBuffer.isEmpty then
    ({ n with processedFrames := n.processedFrames + frameCount }, buffer)
  else
    let outputChannels := buffer.channels
    let bufferChannels := n.clipBuffer.channelCount
    if outputChannels = 0 ∨ bufferChannels = 0 ∨ n.clipBuffer.frameCount = 0 then
      ({ n with processedFrames := n.processedFrames + frameCount }, buffer)
    else
      let startFrame := n.startFrame
      let endFrame := max n.startFrame n.endFrame
      let bufferFrameCount := n.clipBuffer.frameCount
      let effectiveEnd := min endFrame (startFrame + bufferFrameCount)
      let playbackFrames := effectiveEnd - startFrame
      let fadeOutStart :=
        if playbackFrames ≤ n.fadeOutFrames ∨ playbackFrames = 0 then startFrame
        else effectiveEnd - n.fadeOutFrames
      let buffer' := (List.range frameCount).foldl
        (n.writeFrame effectiveEnd playbackFrames fadeOutStart outputChannels) buffer
      ({ n with processedFrames := n.processedFrames + frameCount }, buffer')

/-- `daft::audio::PluginBusCapabilities`. -/
structure PluginBusCapabilities where
  acceptsAudio : Bool
  emitsAudio : Bool
  acceptsMidi : Bool
  emitsMidi : Bool
  acceptsSidechain : Bool
  emitsSidechain : Bool
deriving DecidableEq

/-- `daft::audio::PluginRenderRequest`. -/
structure PluginRenderRequest where
  hostInstanceId : String
  audioBuffer : BufView
  sampleRate : ℚ
  capabilities : PluginBusCapabilities
  bypassed : Bool

/-- `daft::audio::PluginRenderResult`. -/
structure PluginRenderResult where
  success : Bool
  pluginBypassed : Bool
deriving DecidableEq

/-- The process-wide `PluginHostBridge` callback slot: `none` when no
callback is registered (`Render` then returns `nullopt`); otherwise the
host function, which may mutate the request's audio view and returns the
render result together with the mutated view. -/
def PluginHostSlot : Type :=
  Option (PluginRenderRequest → PluginRenderResult × BufView)

/-- `daft::audio::PluginNode` state (the atomics are plain fields here:
mutations are serialized against render). -/
structure PluginNode where
  sampleRate : ℚ
  hostInstanceId : String
  capabilities : PluginBusCapabilities
  bypassed : Bool
  hostUnavailableLogged : Bool
  renderFailureLogged : Bool
deriving DecidableEq

/-- `PluginNode::logHostUnavailable` (the log write itself is external;
the one-shot flag is the modelled state change). -/
def PluginNode.logHostUnavailable (n : PluginNode) : PluginNode :=
  { n with hostUnavailableLogged := true }

/-- `PluginNode::logRenderFailure`. -/
def PluginNode.logRenderFailure (n : PluginNode) : PluginNode :=
  { n with renderFailureLogged := true }

/-- `PluginNode::process`. The third component of the result records
whether the host render callback was invoked during the call. The final
`result->pluginBypassed` test in the source only selects between two
identical returns, so it introduces no branch here. -/
def PluginNode.process (host : PluginHostSlot) (n : PluginNode) (buffer : BufView) :
    PluginNode × BufView × Bool :=
  if buffer.frames = 0 ∨ buffer.channels = 0 then (n, buffer, false)
  else if n.bypassed then (n, buffer, false)
  else if n.hostInstanceId = "" then (n.logHostUnavailable, buffer, false)
  else
    match host with
    | none => (n.logHostUnavailable, buffer, false)
    | some callback =>
      let r := callback ⟨n.hostInstanceId, buffer, n.sampleRate, n.capabilities, false⟩
      let n1 := { n with hostUnavailableLogged := false }
      if r.1.success then ({ n1 with renderFailureLogged := false }, r.2, true)
      else (n1.logRenderFailure, r.2, true)

/-! ### Scene graph -/

/-- `SceneGraph::kOutputBusId`. -/
def outputBusId : String := "__output__"

/-- `SceneGraph::kMaxChannels`. -/
def kMaxChannels : Nat := 4

/-- `SceneGraph::kMaxFrames`. -/
def kMaxFrames : Nat := 1024

/-- `SceneGraph`'s scheduler template argument (`RealTimeScheduler<128>`). -/
def kSchedulerMaxEvents : Nat := 128

/-- `SceneGraph::Connection`. -/
structure Connection where
  source : String
  destination : String
deriving DecidableEq

/-- Association-list update of an existing key (used to model writes to a
value already present in an `unordered_map`). -/
def alSet {κ β : Type} [DecidableEq κ] (m : List (κ × β)) (k : κ) (v : β) :
    List (κ × β) :=
  m.map fun p => if p.1 = k then (k, v) else p

/-- Association-list insert-or-update (models `map[k] = v` semantics). -/
def alStore {κ β : Type} [DecidableEq κ] (m : List (κ × β)) (k : κ) (v : β) :
    List (κ × β) :=
  if (m.lookup k).isSome then alSet m k v else m ++ [(k, v)]

/-- Models `map[k].push_back(v)` on an `unordered_map<κ, vector<β>>`:
`operator[]` default-constructs the entry when absent. -/
def alPush {κ β : Type} [DecidableEq κ] (m : List (κ × List β)) (k : κ) (v : β) :
    List (κ × List β) :=
  if (m.lookup k).isSome then m.map (fun p => if p.1 = k then (p.1, p.2 ++ [v]) else p)
  else m ++ [(k, [v])]

/-- The local maps built by the first pass of `SceneGraph::rebuildTopology`
over `connections_`. -/
structure TopoBuild where
  indegree : List (String × Nat)
  adjacency : List (String × List String)
  inboundEdges : List (String × List String)
  sourcesFeedingOutput : List String

/-- One `connections_` iteration of the first `rebuildTopology` pass:
skip connections with an absent source; record output-bus sources; skip
absent destinations; otherwise extend adjacency, inbound edges and the
destination's in-degree. -/
def topoStep (nodeIds : List String) (b : TopoBuild) (c : Connection) : TopoBuild :=
  if c.source ∈ nodeIds then
    if c.destination = outputBusId then
      { b with
        sourcesFeedingOutput :=
          if c.source ∈ b.sourcesFeedingOutput then b.sourcesFeedingOutput
          else b.sourcesFeedingOutput ++ [c.source] }
    else if c.destination ∈ nodeIds then
      { b with
        adjacency := alPush b.adjacency c.source c.destination
        inboundEdges := alPush b.inboundEdges c.destination c.source
        indegree :=
          alSet b.indegree c.destination ((b.indegree.lookup c.destination).getD 0 + 1) }
    else b
  else b

/-- The successor visit inside the Kahn loop of `rebuildTopology`: when the
destination is a tracked node of positive in-degree, decrement it and
enqueue the destination when it reaches zero. -/
def kahnVisit (p : List (String × Nat) × List String) (dest : String) :
    List (String × Nat) × List String :=
  match p.1.lookup dest with
  | none => p
  | some deg =>
    if 0 < deg then
      let indeg := alSet p.1 dest (deg - 1)
      if deg - 1 = 0 then (indeg, p.2 ++ [dest]) else (indeg, p.2)
    else p

/-- The Kahn worklist loop of `rebuildTopology`: pop the queue front,
append it to the render order, and visit its adjacency successors. The
C++ loop walks a growing vector by index; here the already-consumed part
is `acc` and the remainder is the queue argument. `fuel` bounds the number
of pops; `rebuildTopology` passes `nodeIds.length`, which suffices because
each node is enqueued at most once. Returns the accumulated order and the
final in-degree map. -/
def kahnLoop (adjacency : List (String × List String)) :
    Nat → List (String × Nat) → List String → List String →
      List String × List (String × Nat)
  | 0, indeg, _, acc => (acc, indeg)
  | _ + 1, indeg, [], acc => (acc, indeg)
  | fuel + 1, indeg, current :: rest, acc =>
    let next := ((adjacency.lookup current).getD []).foldl kahnVisit (indeg, rest)
    kahnLoop adjacency fuel next.1 next.2 (acc ++ [current])

/-- The topology cache rebuilt by `SceneGraph::rebuildTopology`. -/
structure Topology where
  renderOrder : List String
  inboundEdges : List (String × List String)
  outputSources : List String
deriving DecidableEq

/-- `SceneGraph::rebuildTopology` as a pure function of the node-id set
(in insertion order) and the connection list. -/
def rebuildTopology (nodeIds : List String) (conns : List Connection) : Topology :=
  if nodeIds = [] then ⟨[], [], []⟩
  else
    let b := conns.foldl (topoStep nodeIds) ⟨nodeIds.map (fun id => (id, 0)), [], [], []⟩
    let queue0 := (b.indegree.filter fun p => p.2 = 0).map Prod.fst
    let kahn := kahnLoop b.adjacency nodeIds.length b.indegree queue0 []
    let order := kahn.2.foldl
      (fun acc p => if 0 < p.2 ∧ p.1 ∉ acc then acc ++ [p.1] else acc) kahn.1
    let outputSources :=
      if b.sourcesFeedingOutput ≠ [] then b.sourcesFeedingOutput
      else nodeIds.filter fun id => (b.adjacency.lookup id).isNone
    ⟨order, b.inboundEdges, outputSources⟩

/-- `SceneGraph::NodeBuffer`: the per-node stack storage
(`kMaxChannels × kMaxFrames` samples) plus the current frame count. -/
structure NodeBuffer where
  frameCount : Nat
  rows : List (List ℚ)
deriving DecidableEq

/-- A default-constructed `NodeBuffer` (zeroed storage, frame count 0). -/
def emptyNodeBuffer : NodeBuffer :=
  ⟨0, List.replicate kMaxChannels (List.replicate kMaxFrames 0)⟩

/-- `NodeBuffer::configure`: `StackAudioBuffer::setFrameCount` clamps the
frame count to `kMaxFrames`; the channel-pointer table is captured by
`view` below. -/
def NodeBuffer.configure (b : NodeBuffer) (frameCount : Nat) : NodeBuffer :=
  { b with frameCount := min frameCount kMaxFrames }

/-- `NodeBuffer::view`: expose `channelCount` channels of the storage at
the current frame count. -/
def NodeBuffer.view (b : NodeBuffer) (channelCount : Nat) : BufView :=
  ⟨b.frameCount, (b.rows.take channelCount).map (List.take b.frameCount)⟩

/-- Write a processed view back into the storage rows (in C++ the node
writes through the channel pointers; the model makes the write-back
explicit). Rows beyond the view and samples beyond the frame count keep
their previous contents. -/
def NodeBuffer.store (b : NodeBuffer) (v : BufView) : NodeBuffer :=
  ⟨b.frameCount,
    (List.range kMaxChannels).map fun ch =>
      match v.data[ch]? with
      | some row => row.take b.frameCount ++ (b.rows.getD ch []).drop b.frameCount
      | none => b.rows.getD ch []⟩

/-- The payload captured by a `scheduleAutomation` closure: the raw node
pointer (`it->second.get()`, modelled as the heap address) and the
automation callback over the node. -/
def AutomationPayload (Node : Type) : Type := Nat × (Node → Node)

/-- `daft::audio::SceneGraph` state. Nodes live in an explicit heap keyed
by address, so that raw pointers captured by scheduled closures can
dangle observably after `removeNode`. `nodes` maps ids to addresses in
insertion order. -/
structure GraphState (Node : Type) where
  sampleRate : ℚ
  nextAddr : Nat
  heap : List (Nat × Node)
  nodes : List (String × Nat)
  connections : List Connection
  clock : RenderClock
  scheduler : RealTimeScheduler (AutomationPayload Node)
  nodeBuffers : List (String × NodeBuffer)
  renderOrder : List String
  inboundEdges : List (String × List String)
  outputSources : List String

/-- The node ids currently present, in insertion order. -/
def GraphState.nodeIds (g : GraphState Node) : List String :=
  g.nodes.map Prod.fst

/-- Store a freshly rebuilt topology cache into the graph state. -/
def GraphState.withTopology (g : GraphState Node) : GraphState Node :=
  let t := rebuildTopology g.nodeIds g.connections
  { g with
    renderOrder := t.renderOrder
    inboundEdges := t.inboundEdges
    outputSources := t.outputSources }

/-- `SceneGraph::SceneGraph`: builds the clock (validating its arguments)
and an empty scheduler. -/
def mkSceneGraph (Node : Type) (sampleRate : ℚ) (framesPerBuffer : Nat) :
    Except Unit (GraphState Node) :=
  match mkRenderClock sampleRate framesPerBuffer with
  | .error e => .error e
  | .ok clock =>
    .ok
      { sampleRate := sampleRate
        nextAddr := 0
        heap := []
        nodes := []
        connections := []
        clock := clock
        scheduler := RealTimeScheduler.init (AutomationPayload Node) kSchedulerMaxEvents
        nodeBuffers := []
        renderOrder := []
        inboundEdges := []
        outputSources := [] }

/-- `SceneGraph::addNode`. `node = none` models a null `unique_ptr`
argument. `prep` is the virtual `prepare(sampleRate)` of the node, invoked
before the insertion attempt; on a duplicate id the prepared node is
dropped (the `unique_ptr` is destroyed) and `false` is returned. -/
def addNode (prep : Node → ℚ → Node) (g : GraphState Node) (id : String)
    (node : Option Node) : Bool × GraphState Node :=
  match node with
  | none => (false, g)
  | some n =>
    let prepared := prep n g.sampleRate
    if (g.nodes.lookup id).isSome then (false, g)
    else
      let addr := g.nextAddr
      let g' :=
        { g with
          nextAddr := addr + 1
          heap := g.heap ++ [(addr, prepared)]
          nodes := g.nodes ++ [(id, addr)]
          nodeBuffers := alStore g.nodeBuffers id emptyNodeBuffer }
      (true, g'.withTopology)

/-- `SceneGraph::removeNode`: erase the node (destroying the heap object
its `unique_ptr` owns), its buffer, and every incident connection, then
rebuild the topology. -/
def removeNode (g : GraphState Node) (id : String) : GraphState Node :=
  let g' :=
    { g with
      heap :=
        match g.nodes.lookup id with
        | some addr => g.heap.filter fun p => p.1 ≠ addr
        | none => g.heap
      nodes := g.nodes.filter fun p => p.1 ≠ id
      nodeBuffers := g.nodeBuffers.filter fun p => p.1 ≠ id
      connections := g.connections.filter fun c => ¬(c.source = id ∨ c.destination = id) }
  g'.withTopology

/-- `SceneGraph::connect`: reject an absent source, an absent non-bus
destination, or a duplicate pair; otherwise append and rebuild. -/
def connect (g : GraphState Node) (source destination : String) :
    Bool × GraphState Node :=
  if (g.nodes.lookup source).isNone then (false, g)
  else if destination ≠ outputBusId ∧ (g.nodes.lookup destination).isNone then (false, g)
  else if (⟨source, destination⟩ : Connection) ∈ g.connections then (false, g)
  else
    (true,
      GraphState.withTopology
        { g with connections := g.connections ++ [(⟨source, destination⟩ : Connection)] })

/-- `SceneGraph::disconnect`: drop matching connections and rebuild. -/
def disconnect (g : GraphState Node) (source destination : String) : GraphState Node :=
  { g with
    connections :=
      g.connections.filter fun c => ¬(c.source = source ∧ c.destination = destination)
  }.withTopology

/-- `SceneGraph::scheduleAutomation` error kinds (`std::runtime_error`
messages "Node not found" and "Scheduler queue is full"). -/
inductive AutomationError
  | nodeNotFound
  | schedulerFull
deriving DecidableEq

/-- `SceneGraph::scheduleAutomation`: look the node up, capture its raw
pointer (heap address) together with the callback inside the scheduled
closure, and fail when the node is absent or the ring is full. -/
def scheduleAutomation (g : GraphState Node) (nodeId : String) (cb : Node → Node)
    (frame : Nat) : Except AutomationError (GraphState Node) :=
  match g.nodes.lookup nodeId with
  | none => .error .nodeNotFound
  | some addr =>
    let r := RealTimeScheduler.schedule kSchedulerMaxEvents g.scheduler ⟨frame, some (addr, cb)⟩
    if r.1 then .ok { g with scheduler := r.2 } else .error .schedulerFull

/-- The scheduler dispatch performed at the top of `SceneGraph::render`:
pop every due event and run its closure. A closure dereferences the node
pointer it captured; when that address is still allocated the callback is
applied to the node, and when it has been freed by `removeNode` the C++
dereference is a use-after-free — the model leaves the heap unchanged
there and flags the invocation. The returned trace lists, in invocation
order, each executed closure's target address paired with whether the
target was still allocated. -/
def dispatchGraphEvents (g : GraphState Node) :
    GraphState Node × List (Nat × Bool) :=
  let r := RealTimeScheduler.dispatchDueEvents kSchedulerMaxEvents g.clock.frameTime g.scheduler
  let folded := r.2.foldl
    (fun (p : List (Nat × Node) × List (Nat × Bool)) ev =>
      match ev.callback with
      | none => p
      | some (addr, cb) =>
        match p.1.lookup addr with
        | some n => (alSet p.1 addr (cb n), p.2 ++ [(addr, true)])
        | none => (p.1, p.2 ++ [(addr, false)]))
    (g.heap, [])
  ({ g with scheduler := r.1, heap := folded.1 }, folded.2)

/-- `SceneGraph::ensureNodeBuffers`: configure every present node's buffer
for the current output shape, then propagate the frame count to the clock
(`RenderClock::setFramesPerBuffer` throws on a zero frame count). -/
def ensureNodeBuffers (g : GraphState Node) (frameCount : Nat) :
    Except Unit (GraphState Node) :=
  let buffers := g.nodes.foldl
    (fun bufs p =>
      alStore bufs p.1 (((bufs.lookup p.1).getD emptyNodeBuffer).configure frameCount))
    g.nodeBuffers
  match g.clock.setFramesPerBuffer frameCount with
  | .error e => .error e
  | .ok clock' => .ok { g with nodeBuffers := buffers, clock := clock' }

/-- The body of the per-node step of the render traversal, returning the
updated heap and buffer map: skip ids whose node or buffer is missing,
zero the node's scratch view, sum the inbound sources' scratch views into
it, run the node's `process`, and write the results back. `proc` is the
virtual `process` of the node type. -/
def processNodeCore (proc : Node → BufView → Node × BufView) (channelCount : Nat)
    (g : GraphState Node) (nodeId : String) :
    List (Nat × Node) × List (String × NodeBuffer) :=
  match g.nodes.lookup nodeId with
  | none => (g.heap, g.nodeBuffers)
  | some addr =>
    match g.nodeBuffers.lookup nodeId with
    | none => (g.heap, g.nodeBuffers)
    | some buf =>
      match g.heap.lookup addr with
      | none => (g.heap, g.nodeBuffers)
      | some node =>
        let view := (buf.view channelCount).fill 0
        let view := ((g.inboundEdges.lookup nodeId).getD []).foldl
          (fun v srcId =>
            match g.nodeBuffers.lookup srcId with
            | some sb => v.addBufferInPlace (sb.view channelCount)
            | none => v)
          view
        let r := proc node view
        (alSet g.heap addr r.1, alSet g.nodeBuffers nodeId (buf.store r.2))

/-- The per-node step of the render traversal; only the heap (node state)
and the scratch buffers change. -/
def processNode (proc : Node → BufView → Node × BufView) (channelCount : Nat)
    (g : GraphState Node) (nodeId : String) : GraphState Node :=
  { g with
    heap := (processNodeCore proc channelCount g nodeId).1
    nodeBuffers := (processNodeCore proc channelCount g nodeId).2 }

/-- The tail of the render pass, after the output has been zeroed and the
node buffers configured: walk `render_order` processing each node, sum the
output sources' scratch views into the zeroed output, and advance the
clock by the block's frame count. -/
def renderBody (proc : Node → BufView → Node × BufView) (channelCount frameCount : Nat)
    (out0 : BufView) (g1 : GraphState Node) : GraphState Node × BufView :=
  let g2 := g1.renderOrder.foldl (processNode proc channelCount) g1
  let out1 := g2.outputSources.foldl
    (fun o srcId =>
      match g2.nodeBuffers.lookup srcId with
      | some b => o.addBufferInPlace (b.view channelCount)
      | none => o)
    out0
  ({ g2 with clock := g2.clock.advanceBy frameCount }, out1)

/-- `SceneGraph::render`. An output view larger than the compile-time
maxima is zero-filled and the call returns with no other effect; otherwise
the due events are dispatched, the output zeroed, the node buffers
configured (this step throws on a zero frame count) and the graph walked.
The `Except` error is the `std::invalid_argument` escaping from
`RenderClock::setFramesPerBuffer`. -/
def render (proc : Node → BufView → Node × BufView) (g : GraphState Node)
    (out : BufView) : Except Unit (GraphState Node × BufView) :=
  if kMaxChannels < out.channels ∨ kMaxFrames < out.frames then .ok (g, out.fill 0)
  else
    match ensureNodeBuffers (dispatchGraphEvents g).1 out.frames with
    | .error e => .error e
    | .ok g1 => .ok (renderBody proc out.channels out.frames (out.fill 0) g1)

/-- A control-plane mutation of the scene graph (the four operations the
topology claims quantify over). -/
inductive GraphOp (Node : Type)
  | addNode (id : String) (node : Option Node)
  | removeNode (id : String)
  | connect (source destination : String)
  | disconnect (source destination : String)

/-- Apply one mutation. -/
def applyOp (prep : Node → ℚ → Node) (g : GraphState Node) : GraphOp Node → GraphState Node
  | .addNode id n => (addNode prep g id n).2
  | .removeNode id => removeNode g id
  | .connect s d => (connect g s d).2
  | .disconnect s d => disconnect g s d

/-- Apply a mutation sequence. -/
def applyOps (prep : Node → ℚ → Node) (g : GraphState Node) (ops : List (GraphOp Node)) :
    GraphState Node :=
  ops.foldl (applyOp prep) g

/-! ### Specification-level predicates -/

/-- `u` occurs strictly before `v` in the list `l`. -/
def ListBefore (l : List String) (u v : String) : Prop :=
  ∃ l1 l2 l3, l = l1 ++ u :: l2 ++ v :: l3

/-- The node-to-node connection relation of a connection list: `u → v`
when some connection joins them and `v` is not the output-bus sentinel. -/
def EdgeRel (conns : List Connection) (u v : String) : Prop :=
  (⟨u, v⟩ : Connection) ∈ conns ∧ v ≠ outputBusId

/-- Acyclicity of the node-to-node connection relation. -/
def AcyclicConns (conns : List Connection) : Prop :=
  ∀ v, ¬ Relation.TransGen (EdgeRel conns) v v

/-- The node-to-node edges retained by `rebuildTopology`'s first pass:
present source, non-bus present destination. -/
def nodeEdges (nodeIds : List String) (conns : List Connection) : List Connection :=
  conns.filter fun c =>
    decide (c.source ∈ nodeIds ∧ c.destination ≠ outputBusId ∧ c.destination ∈ nodeIds)

/-- The retained edges targeting `v`. -/
def edgesTo (edges : List Connection) (v : String) : List Connection :=
  edges.filter fun c => decide (c.destination = v)

/-- Structural well-formedness of a graph state, maintained by every
mutation: unique node ids, duplicate-free connections whose endpoints are
present (or the output bus), and a topology cache equal to a fresh
rebuild. -/
def GraphWf (g : GraphState Node) : Prop :=
  g.nodeIds.Nodup ∧
  g.connections.Nodup ∧
  (∀ c ∈ g.connections,
    c.source ∈ g.nodeIds ∧ (c.destination = outputBusId ∨ c.destination ∈ g.nodeIds)) ∧
  g.renderOrder = (rebuildTopology g.nodeIds g.connections).renderOrder

/-- The amplitude envelope of a clip played with `start = 0`, `end = N`,
`fade_in = fade_out = F` and gain `g`, at absolute frame `i < N`, as the
source computes it: `g·(i+1)/F` over the fade-in window, `g` over the
body, `g·(N−i)/F` over the fade-out window. -/
def fadeEnvelope (N F : Nat) (g : ℚ) (i : Nat) : ℚ :=
  if i < F then g * (((i : ℚ) + 1) / (F : ℚ))
  else if i < N - F then g
  else g * ((((N - i : Nat) : ℚ)) / (F : ℚ))

/-- A view of exactly `chN` channel rows, each of exactly `frN` samples. -/
def BufShape (chN frN : Nat) (v : BufView) : Prop :=
  v.frames = frN ∧ v.data.length = chN ∧ ∀ row ∈ v.data, row.length = frN

/-! ### Ghost state of the Kahn phase (topology-correctness proof) -/

/-- Well-formedness of the retained edge list fed to the Kahn phase:
duplicate-free, with both endpoints among the tracked node ids. -/
structure EdgesWf (nodeIds : List String) (edges : List Connection) : Prop where
  nodup : edges.Nodup
  srcMem : ∀ c ∈ edges, c.source ∈ nodeIds
  dstMem : ∀ c ∈ edges, c.destination ∈ nodeIds

/-- The in-degree the Kahn loop maintains for `v`: the number of retained
edges into `v` whose source has not been emitted yet. -/
def remInDeg (edges : List Connection) (acc : List String) (v : String) : Nat :=
  ((edgesTo edges v).filter fun c => decide (c.source ∉ acc)).length

/-- Whether the edge `c` still counts toward its destination's in-degree
while the loop is mid-way through the successor list of the just-popped
node `cur`, the prefix `done` of that list having been visited. -/
def stillCounted (acc : List String) (cur : String) (done : List String)
    (c : Connection) : Bool :=
  decide (c.source ∉ acc) &&
    !(decide (c.source = cur) && decide (c.destination ∈ done))

/-- The mid-visit in-degree of `v`. -/
def midInDeg (edges : List Connection) (acc : List String) (cur : String)
    (done : List String) (v : String) : Nat :=
  ((edgesTo edges v).filter (stillCounted acc cur done)).length

/-- The invariant of the Kahn worklist loop: `acc` is the emitted order so
far and `queue` the pending worklist; the in-degree map tracks `remInDeg`,
a node's count is zero exactly when it has been emitted or enqueued, every
edge into an enqueued node comes from an emitted one, and every edge into
an emitted node comes from an earlier-emitted one. -/
structure KahnInv (nodeIds : List String) (edges : List Connection)
    (indeg : List (String × Nat)) (queue acc : List String) : Prop where
  accNodup : acc.Nodup
  queueNodup : queue.Nodup
  disj : ∀ x ∈ queue, x ∉ acc
  accSub : ∀ x ∈ acc, x ∈ nodeIds
  queueSub : ∀ x ∈ queue, x ∈ nodeIds
  indegKeys : indeg.map Prod.fst = nodeIds
  indegVal : ∀ v ∈ nodeIds, indeg.lookup v = some (remInDeg edges acc v)
  zeroMem : ∀ v ∈ nodeIds, (remInDeg edges acc v = 0 ↔ v ∈ acc ∨ v ∈ queue)
  queueEdge : ∀ c ∈ edges, c.destination ∈ queue → c.source ∈ acc
  accEdge : ∀ c ∈ edges, c.destination ∈ acc → ListBefore acc c.source c.destination

/-- The invariant holding part-way through the successor visit of `cur`,
with `done` the visited prefix of its adjacency list. -/
structure KahnMid (nodeIds : List String) (edges : List Connection)
    (acc : List String) (cur : String) (done : List String)
    (indeg : List (String × Nat)) (queue : List String) : Prop where
  queueNodup : queue.Nodup
  disj : ∀ x ∈ queue, x ∉ acc ++ [cur]
  queueSub : ∀ x ∈ queue, x ∈ nodeIds
  indegKeys : indeg.map Prod.fst = nodeIds
  indegVal : ∀ v ∈ nodeIds, indeg.lookup v = some (midInDeg edges acc cur done v)
  zeroMem : ∀ v ∈ nodeIds,
    (midInDeg edges acc cur done v = 0 ↔ v ∈ acc ++ [cur] ∨ v ∈ queue)
  queueEdge : ∀ c ∈ edges, c.destination ∈ queue → c.source ∈ acc ++ [cur]

/-- The first-pass invariant of `rebuildTopology`, relating the
`topoStep` fold state to the processed connection prefix. -/
def BuildInv (nodeIds : List String) (processed : List Connection)
    (b : TopoBuild) : Prop :=
  b.indegree.map Prod.fst = nodeIds ∧
  (∀ v ∈ nodeIds,
    b.indegree.lookup v = some (edgesTo (nodeEdges nodeIds processed) v).length) ∧
  (∀ u, ((b.adjacency.lookup u).getD []) =
    ((nodeEdges nodeIds processed).filter fun c => decide (c.source = u)).map
      fun c => c.destination)

/-! ### Concrete states for the executable scenarios -/

/-- The state produced by `SceneGraph(48000.0, 64)` over trivial nodes. -/
def emptyGraphU : GraphState Unit :=
  { sampleRate := 48000
    nextAddr := 0
    heap := []
    nodes := []
    connections := []
    clock := ⟨48000, 64, 0⟩
    scheduler := RealTimeScheduler.init (AutomationPayload Unit) kSchedulerMaxEvents
    nodeBuffers := []
    renderOrder := []
    inboundEdges := []
    outputSources := [] }

/-- An output view of 5 channels × 4 frames: its channel count exceeds
`kMaxChannels`. -/
def oversizedView : BufView := ⟨4, List.replicate 5 (List.replicate 4 0)⟩

/-- A 1-channel view with zero frames. -/
def zeroFrameView : BufView := ⟨0, [[]]⟩

/-- A 1-channel, 1-frame view. -/
def oneFrameView : BufView := ⟨1, [[0]]⟩

/-- The `ClipPlayerNode` instance family of the fade claim: a registered
mono clip of `M` frames with sample row `samples`, `start_frame = 0`,
`end_frame = N`, `fade_in_frames = fade_out_frames = F`, gain `g`, and
`processed_frames = 0`. The fields `process` never reads (sample rates and
declared-buffer metadata) are fixed. -/
def clipNodeZeroStart (samples : List ℚ) (M N F : Nat) (g : ℚ) : ClipPlayerNode :=
  { sampleRate := 48000
    clipBuffer := ⟨"clip", 48000, M, [some samples]⟩
    startFrame := 0
    endFrame := N
    fadeInFrames := F
    fadeOutFrames := F
    gain := g
    declaredBufferSampleRate := 48000
    declaredBufferFrames := M
    declaredBufferChannels := 1
    processedFrames := 0 }

/-- A bypassed `PluginNode` bound to host instance `"7"`. -/
def bypassedPluginNode : PluginNode :=
  { sampleRate := 48000
    hostInstanceId := "7"
    capabilities := ⟨true, true, false, false, false, false⟩
    bypassed := true
    hostUnavailableLogged := false
    renderFailureLogged := false }

/-! ## Theorems -/

namespace RealTimeScheduler

theorem increment_eq {cap v : Nat} (hv : v < cap + 1) :
    increment cap v = if v = cap then 0 else v + 1 := by
  unfold increment
  split
  · next h => subst h; simp [Nat.mod_self]
  · next h => exact Nat.mod_eq_of_lt (by omega)

theorem pending_eq {α : Type} {cap : Nat} {s : RealTimeScheduler α} (h : Wf cap s) :
    pending cap s =
      if s.readIndex ≤ s.writeIndex then s.writeIndex - s.readIndex
      else s.writeIndex + (cap + 1) - s.readIndex := by
  obtain ⟨hr, hw, -⟩ := h
  unfold pending
  split
  · next hle =>
    rw [show s.writeIndex + (cap + 1) - s.readIndex
          = (s.writeIndex - s.readIndex) + (cap + 1) from by omega,
      Nat.add_mod_right]
    exact Nat.mod_eq_of_lt (by omega)
  · next hgt =>
    exact Nat.mod_eq_of_lt (by omega)

theorem pending_le {α : Type} {cap : Nat} {s : RealTimeScheduler α} (h : Wf cap s) :
    pending cap s ≤ cap := by
  have hr := h.1
  have hw := h.2.1
  rw [pending_eq h]
  split <;> omega

theorem full_iff {α : Type} {cap : Nat} {s : RealTimeScheduler α} (h : Wf cap s) :
    increment cap s.writeIndex = s.readIndex ↔ pending cap s = cap := by
  have hr := h.1
  have hw := h.2.1
  rw [increment_eq hw, pending_eq h]
  split <;> split <;> omega

theorem addModInj {m r i j : Nat} (hi : i < m) (hj : j < m)
    (h : (r + i) % m = (r + j) % m) : i = j := by
  have h' : i % m = j % m := Nat.ModEq.add_left_cancel' r h
  rwa [Nat.mod_eq_of_lt hi, Nat.mod_eq_of_lt hj] at h'

theorem write_eq {α : Type} {cap : Nat} {s : RealTimeScheduler α} (h : Wf cap s) :
    (s.readIndex + pending cap s) % (cap + 1) = s.writeIndex := by
  have hr := h.1
  have hw := h.2.1
  rw [pending_eq h]
  split
  · next hle =>
    rw [show s.readIndex + (s.writeIndex - s.readIndex) = s.writeIndex from by omega]
    exact Nat.mod_eq_of_lt hw
  · next hgt =>
    rw [show s.readIndex + (s.writeIndex + (cap + 1) - s.readIndex)
          = s.writeIndex + (cap + 1) from by omega,
      Nat.add_mod_right]
    exact Nat.mod_eq_of_lt hw

theorem schedule_of_full {α : Type} {cap : Nat} {s : RealTimeScheduler α}
    (h : Wf cap s) (hfull : pending cap s = cap) (e : ScheduledEvent α) :
    schedule cap s e = (false, s) := by
  unfold schedule
  simp only [if_pos ((full_iff h).2 hfull)]

theorem schedule_of_not_full {α : Type} {cap : Nat} {s : RealTimeScheduler α}
    (h : Wf cap s) (hnf : pending cap s < cap) (e : ScheduledEvent α) :
    (schedule cap s e).1 = true ∧
    Wf cap (schedule cap s e).2 ∧
    pending cap (schedule cap s e).2 = pending cap s + 1 ∧
    queueList cap (schedule cap s e).2 = queueList cap s ++ [e] := by
  have hr := h.1
  have hw := h.2.1
  have hlen := h.2.2
  have hcond : increment cap s.writeIndex ≠ s.readIndex := by
    intro hc
    have := (full_iff h).1 hc
    omega
  have hsched : schedule cap s e =
      (true,
        { s with
          events := s.events.set s.writeIndex e
          writeIndex := increment cap s.writeIndex }) := by
    unfold schedule
    simp only [if_neg hcond]
  set s' : RealTimeScheduler α :=
    { s with
      events := s.events.set s.writeIndex e
      writeIndex := increment cap s.writeIndex } with hs'
  have hw' : s'.writeIndex < cap + 1 := Nat.mod_lt _ (by omega)
  have hWf' : Wf cap s' := ⟨hr, hw', by simpa [hs'] using hlen⟩
  have hpend : pending cap s' = pending cap s + 1 := by
    have hx := pending_eq h
    have hy := pending_eq hWf'
    rw [show s'.readIndex = s.readIndex from rfl,
      show s'.writeIndex = increment cap s.writeIndex from rfl,
      increment_eq hw] at hy
    split_ifs at hx hy <;> omega
  have hqueue : queueList cap s' = queueList cap s ++ [e] := by
    unfold queueList
    rw [hpend, List.range_succ, List.map_append, List.map_singleton]
    congr 1
    · apply List.map_congr_left
      intro i hi
      have hip : i < pending cap s := List.mem_range.1 hi
      have hne : (s.readIndex + i) % (cap + 1) ≠ s.writeIndex := by
        intro hcontra
        have hkey : (s.readIndex + i) % (cap + 1) =
            (s.readIndex + pending cap s) % (cap + 1) := by
          rw [write_eq h] at *
          exact hcontra
        have : i = pending cap s :=
          addModInj (by omega) (by omega) hkey
        omega
      show s'.events.getD ((s'.readIndex + i) % (cap + 1)) ⟨0, none⟩ =
        s.events.getD ((s.readIndex + i) % (cap + 1)) ⟨0, none⟩
      have h1 : s'.readIndex = s.readIndex := rfl
      rw [h1, List.getD_eq_getElem?_getD, List.getD_eq_getElem?_getD]
      have : s'.events = s.events.set s.writeIndex e := rfl
      rw [this, List.getElem?_set_ne (fun hx => hne hx.symm)]
    · congr 1
      show s'.events.getD ((s'.readIndex + pending cap s) % (cap + 1)) ⟨0, none⟩ = e
      have h1 : s'.readIndex = s.readIndex := rfl
      have h2 : s'.events = s.events.set s.writeIndex e := rfl
      rw [h1, h2, write_eq h, List.getD_eq_getElem?_getD,
        List.getElem?_set_eq_of_lt e (by omega)]
      rfl
  rw [hsched]
  exact ⟨rfl, hWf', hpend, hqueue⟩

theorem pending_read_inc {α : Type} {cap : Nat} {s : RealTimeScheduler α}
    (h : Wf cap s) (hne : s.readIndex ≠ s.writeIndex) :
    pending cap { s with readIndex := increment cap s.readIndex } + 1 = pending cap s := by
  have hr := h.1
  have hw := h.2.1
  have hWf' : Wf cap { s with readIndex := increment cap s.readIndex } :=
    ⟨Nat.mod_lt _ (by omega), hw, h.2.2⟩
  rw [pending_eq hWf', pending_eq h]
  show (if (increment cap s.readIndex) ≤ s.writeIndex
      then s.writeIndex - increment cap s.readIndex
      else s.writeIndex + (cap + 1) - increment cap s.readIndex) + 1 = _
  rw [increment_eq hr]
  split_ifs <;> omega

theorem queueList_cons {α : Type} {cap : Nat} {s : RealTimeScheduler α}
    (h : Wf cap s) (hne : s.readIndex ≠ s.writeIndex) :
    queueList cap s =
      s.events.getD s.readIndex ⟨0, none⟩ ::
        queueList cap { s with readIndex := increment cap s.readIndex } := by
  have hr := h.1
  have hp := pending_read_inc h hne
  unfold queueList
  rw [show pending cap s
        = pending cap { s with readIndex := increment cap s.readIndex } + 1 from hp.symm]
  rw [List.range_succ_eq_map, List.map_cons, List.map_map]
  congr 1
  · show s.events.getD ((s.readIndex + 0) % (cap + 1)) ⟨0, none⟩ = _
    rw [Nat.add_zero, Nat.mod_eq_of_lt hr]
  · apply List.map_congr_left
    intro i _
    show s.events.getD ((s.readIndex + (i + 1)) % (cap + 1)) ⟨0, none⟩ =
      s.events.getD ((increment cap s.readIndex + i) % (cap + 1)) ⟨0, none⟩
    congr 1
    unfold increment
    rw [Nat.mod_add_mod]
    congr 1
    omega

theorem dispatchLoop_spec {α : Type} (cap now : Nat) (fuel : Nat) :
    ∀ (s : RealTimeScheduler α) (acc : List (ScheduledEvent α)),
      Wf cap s → pending cap s ≤ fuel →
      Wf cap (dispatchLoop cap now fuel s acc).1 ∧
      ∃ popped,
        (dispatchLoop cap now fuel s acc).2 = acc ++ popped ∧
        queueList cap s = popped ++ queueList cap (dispatchLoop cap now fuel s acc).1 ∧
        ∀ ev ∈ popped, ev.frame ≤ now := by
  induction fuel with
  | zero =>
    intro s acc h _
    exact ⟨h, [], by simp [dispatchLoop], by simp [dispatchLoop], by simp⟩
  | succ fuel ih =>
    intro s acc h hf
    by_cases hrw : s.readIndex = s.writeIndex
    · have hred : dispatchLoop cap now (fuel + 1) s acc = (s, acc) := by
        simp only [dispatchLoop]
        rw [if_pos hrw]
      rw [hred]
      exact ⟨h, [], by simp, by simp, by simp⟩
    · by_cases hfr : now < (s.events.getD s.readIndex ⟨0, none⟩).frame
      · have hred : dispatchLoop cap now (fuel + 1) s acc = (s, acc) := by
          simp only [dispatchLoop]
          rw [if_neg hrw]
          exact if_pos hfr
        rw [hred]
        exact ⟨h, [], by simp, by simp, by simp⟩
      · have h' : Wf cap { s with readIndex := increment cap s.readIndex } :=
          ⟨Nat.mod_lt _ (by omega), h.2.1, h.2.2⟩
        have hp := pending_read_inc h hrw
        have hstep : dispatchLoop cap now (fuel + 1) s acc =
            dispatchLoop cap now fuel { s with readIndex := increment cap s.readIndex }
              (acc ++ [s.events.getD s.readIndex ⟨0, none⟩]) := by
          simp only [dispatchLoop]
          rw [if_neg hrw]
          exact if_neg hfr
        obtain ⟨hWfF, popped, hacc, hq, hle⟩ :=
          ih { s with readIndex := increment cap s.readIndex }
            (acc ++ [s.events.getD s.readIndex ⟨0, none⟩]) h' (by omega)
        rw [hstep]
        refine ⟨hWfF, s.events.getD s.readIndex ⟨0, none⟩ :: popped, ?_, ?_, ?_⟩
        · rw [hacc]
          simp
        · rw [queueList_cons h hrw, hq]
          simp
        · intro ev hev
          rcases List.mem_cons.1 hev with hev | hev
          · subst hev
            omega
          · exact hle ev hev

theorem init_wf (α : Type) (cap : Nat) : Wf cap (init α cap) := by
  refine ⟨?_, ?_, ?_⟩ <;> simp [init]

theorem init_queueList (α : Type) (cap : Nat) : queueList cap (init α cap) = [] := by
  simp [queueList, pending, init, Nat.mod_self]

end RealTimeScheduler

theorem schedRunStep_schedule (cap : Nat) (s0 : SchedRunState α) (e : ScheduledEvent α) :
    schedRunStep cap s0 (.schedule e) =
      { s0 with
        sched := (RealTimeScheduler.schedule cap s0.sched e).2
        accepted :=
          if (RealTimeScheduler.schedule cap s0.sched e).1 then s0.accepted ++ [e]
          else s0.accepted } := rfl

theorem schedRunStep_advanceBy (cap : Nat) (s0 : SchedRunState α) (n : Nat) :
    schedRunStep cap s0 (.advanceBy n) = { s0 with clock := s0.clock.advanceBy n } := rfl

theorem schedRunStep_dispatch (cap : Nat) (s0 : SchedRunState α) :
    schedRunStep cap s0 .dispatch =
      { s0 with
        sched := (RealTimeScheduler.dispatchDueEvents cap s0.clock.frameTime s0.sched).1
        poppedLog :=
          s0.poppedLog ++
            (RealTimeScheduler.dispatchDueEvents cap s0.clock.frameTime s0.sched).2.map
              (fun e => (e, s0.clock.frameTime)) } := rfl

theorem schedFoldl_inv {α : Type} (cap : Nat) (ops : List (SchedOp α)) :
    ∀ (s0 : SchedRunState α),
      RealTimeScheduler.Wf cap s0.sched →
      s0.accepted = s0.poppedLog.map Prod.fst ++ RealTimeScheduler.queueList cap s0.sched →
      (∀ p ∈ s0.poppedLog, p.1.frame ≤ p.2) →
      RealTimeScheduler.Wf cap (ops.foldl (schedRunStep cap) s0).sched ∧
      (ops.foldl (schedRunStep cap) s0).accepted =
        (ops.foldl (schedRunStep cap) s0).poppedLog.map Prod.fst ++
          RealTimeScheduler.queueList cap (ops.foldl (schedRunStep cap) s0).sched ∧
      ∀ p ∈ (ops.foldl (schedRunStep cap) s0).poppedLog, p.1.frame ≤ p.2 := by
  induction ops with
  | nil =>
    intro s0 h1 h2 h3
    exact ⟨h1, h2, h3⟩
  | cons op rest ih =>
    intro s0 h1 h2 h3
    rw [List.foldl_cons]
    cases op with
    | schedule e =>
      rw [schedRunStep_schedule]
      by_cases hfull : RealTimeScheduler.increment cap s0.sched.writeIndex = s0.sched.readIndex
      · have hp := (RealTimeScheduler.full_iff h1).1 hfull
        have hs := RealTimeScheduler.schedule_of_full h1 hp e
        rw [hs]
        exact ih _ h1 (by simpa using h2) h3
      · have hlt : RealTimeScheduler.pending cap s0.sched < cap := by
          have hle := RealTimeScheduler.pending_le h1
          have hne : RealTimeScheduler.pending cap s0.sched ≠ cap :=
            fun hc => hfull ((RealTimeScheduler.full_iff h1).2 hc)
          omega
        obtain ⟨hb, hwf', hp, hq⟩ := RealTimeScheduler.schedule_of_not_full h1 hlt e
        apply ih
        · exact hwf'
        · rw [hb]
          simp only [if_true]
          rw [h2, hq, List.append_assoc]
        · exact h3
    | advanceBy n =>
      rw [schedRunStep_advanceBy]
      exact ih _ h1 h2 h3
    | dispatch =>
      rw [schedRunStep_dispatch]
      have hpend : RealTimeScheduler.pending cap s0.sched ≤ cap + 1 := by
        have := RealTimeScheduler.pending_le h1
        omega
      obtain ⟨hwfF, popped, hacc2, hq2, hle2⟩ :=
        RealTimeScheduler.dispatchLoop_spec cap s0.clock.frameTime (cap + 1) s0.sched [] h1 hpend
      have hpop : (RealTimeScheduler.dispatchDueEvents cap s0.clock.frameTime s0.sched).2
          = popped := by
        show (RealTimeScheduler.dispatchLoop cap s0.clock.frameTime (cap + 1) s0.sched []).2
          = popped
        rw [hacc2]
        simp
      have hsched1 : (RealTimeScheduler.dispatchDueEvents cap s0.clock.frameTime s0.sched).1
          = (RealTimeScheduler.dispatchLoop cap s0.clock.frameTime (cap + 1) s0.sched []).1 :=
        rfl
      have hfst : ((RealTimeScheduler.dispatchDueEvents cap s0.clock.frameTime s0.sched).2.map
          (fun e => (e, s0.clock.frameTime))).map Prod.fst = popped := by
        rw [hpop]
        simp only [List.map_map]
        rw [show (Prod.fst ∘ fun e : ScheduledEvent α => (e, s0.clock.frameTime)) = id from rfl,
          List.map_id]
      apply ih
      · rw [hsched1]
        exact hwfF
      · show s0.accepted = _
        rw [List.map_append, hfst, hsched1, h2, hq2, List.append_assoc]
      · intro p hp
        rcases List.mem_append.1 hp with hp | hp
        · exact h3 p hp
        · obtain ⟨e, he, rfl⟩ := List.mem_map.1 hp
          rw [hpop] at he
          exact hle2 e he

theorem schedFoldl_accepted_sublist {α : Type} (cap : Nat) (ops : List (SchedOp α)) :
    ∀ (s0 : SchedRunState α),
      List.Sublist ((ops.foldl (schedRunStep cap) s0).accepted.map ScheduledEvent.frame)
        (s0.accepted.map ScheduledEvent.frame ++ scheduledFrames ops) := by
  induction ops with
  | nil =>
    intro s0
    simp [scheduledFrames]
  | cons op rest ih =>
    intro s0
    rw [List.foldl_cons]
    cases op with
    | schedule e =>
      rw [schedRunStep_schedule]
      have htarget : scheduledFrames (SchedOp.schedule e :: rest) =
          e.frame :: scheduledFrames rest := by
        simp [scheduledFrames]
      rw [htarget]
      by_cases hb : (RealTimeScheduler.schedule cap s0.sched e).1
      · have := ih { s0 with
          sched := (RealTimeScheduler.schedule cap s0.sched e).2
          accepted := s0.accepted ++ [e] }
        rw [if_pos hb]
        refine List.Sublist.trans this ?_
        show List.Sublist ((s0.accepted ++ [e]).map ScheduledEvent.frame ++ scheduledFrames rest) _
        rw [List.map_append, List.map_singleton, List.append_assoc, List.singleton_append]
      · have := ih { s0 with
          sched := (RealTimeScheduler.schedule cap s0.sched e).2
          accepted := s0.accepted }
        rw [if_neg hb]
        refine List.Sublist.trans this ?_
        exact List.Sublist.append_left (List.sublist_cons_self _ _) _
    | advanceBy n =>
      rw [schedRunStep_advanceBy]
      have htarget : scheduledFrames (SchedOp.advanceBy n :: rest) = scheduledFrames rest := by
        simp [scheduledFrames]
      rw [htarget]
      exact ih _
    | dispatch =>
      rw [schedRunStep_dispatch]
      have htarget : scheduledFrames (SchedOp.dispatch :: rest) = scheduledFrames rest := by
        simp [scheduledFrames]
      rw [htarget]
      exact ih _

theorem schedRun_inv {α : Type} (cap : Nat) (clock : RenderClock) (ops : List (SchedOp α)) :
    RealTimeScheduler.Wf cap (schedRun α cap clock ops).sched ∧
    (schedRun α cap clock ops).accepted =
      (schedRun α cap clock ops).poppedLog.map Prod.fst ++
        RealTimeScheduler.queueList cap (schedRun α cap clock ops).sched ∧
    ∀ p ∈ (schedRun α cap clock ops).poppedLog, p.1.frame ≤ p.2 := by
  unfold schedRun
  apply schedFoldl_inv
  · exact RealTimeScheduler.init_wf α cap
  · simp [RealTimeScheduler.init_queueList]
  · simp

/-- C5: in every reachable state of `RealTimeScheduler<Cap>` at most `Cap`
events are pending; a `schedule` call on a queue holding exactly `Cap`
events returns `false` and leaves the whole scheduler state (slots, read
index, write index) unchanged; a `schedule` call on a queue holding fewer
than `Cap` events returns `true` and appends the event to the pending
queue. -/
theorem c5_scheduler_capacity_bound {α : Type} (cap : Nat) (clock : RenderClock)
    (ops : List (SchedOp α)) (e : ScheduledEvent α) :
    RealTimeScheduler.pending cap (schedRun α cap clock ops).sched ≤ cap ∧
    (RealTimeScheduler.pending cap (schedRun α cap clock ops).sched = cap →
      RealTimeScheduler.schedule cap (schedRun α cap clock ops).sched e =
        (false, (schedRun α cap clock ops).sched)) ∧
    (RealTimeScheduler.pending cap (schedRun α cap clock ops).sched < cap →
      (RealTimeScheduler.schedule cap (schedRun α cap clock ops).sched e).1 = true ∧
      RealTimeScheduler.queueList cap
          (RealTimeScheduler.schedule cap (schedRun α cap clock ops).sched e).2 =
        RealTimeScheduler.queueList cap (schedRun α cap clock ops).sched ++ [e] ∧
      RealTimeScheduler.pending cap
          (RealTimeScheduler.schedule cap (schedRun α cap clock ops).sched e).2 =
        RealTimeScheduler.pending cap (schedRun α cap clock ops).sched + 1) := by
  obtain ⟨hwf, -, -⟩ := schedRun_inv cap clock ops
  refine ⟨RealTimeScheduler.pending_le hwf, ?_, ?_⟩
  · intro hfull
    exact RealTimeScheduler.schedule_of_full hwf hfull e
  · intro hlt
    obtain ⟨hb, -, hp, hq⟩ := RealTimeScheduler.schedule_of_not_full hwf hlt e
    exact ⟨hb, hq, hp⟩

/-- Witness for C5: with `Cap = 1`, after one accepted event the queue is
full and the next `schedule` is refused without side effect, while on the
empty queue `schedule` succeeds. -/
theorem c5_scheduler_capacity_bound_witness :
    (RealTimeScheduler.pending 1
        (schedRun Nat 1 ⟨48000, 64, 0⟩ [.schedule ⟨0, some 1⟩]).sched = 1 ∧
      RealTimeScheduler.schedule 1
          (schedRun Nat 1 ⟨48000, 64, 0⟩ [.schedule ⟨0, some 1⟩]).sched ⟨7, some 2⟩ =
        (false, (schedRun Nat 1 ⟨48000, 64, 0⟩ [.schedule ⟨0, some 1⟩]).sched)) ∧
    (RealTimeScheduler.schedule 1 (schedRun Nat 1 ⟨48000, 64, 0⟩ []).sched ⟨7, some 2⟩).1 =
      true :=
  ⟨⟨by decide,
      (c5_scheduler_capacity_bound 1 ⟨48000, 64, 0⟩ [.schedule ⟨0, some 1⟩] ⟨7, some 2⟩).2.1
        (by decide)⟩,
    ((c5_scheduler_capacity_bound 1 ⟨48000, 64, 0⟩ [] ⟨7, some 2⟩).2.2 (by decide)).1⟩

/-- C6 (amended): over every interleaving of `schedule`, clock advance and
`dispatchDueEvents`, no popped event's frame exceeds the frame time
observed at the start of its dispatch call; and provided the producer
schedules events in non-decreasing frame order — the precondition the
source relies on, since the ring never re-sorts — the frames of the
invoked events, in invocation order across the whole run, are
non-decreasing. -/
theorem c6_dispatch_frame_order {α : Type} (cap : Nat) (clock : RenderClock)
    (ops : List (SchedOp α)) :
    (∀ p ∈ (schedRun α cap clock ops).poppedLog, p.1.frame ≤ p.2) ∧
    ((scheduledFrames ops).Pairwise (· ≤ ·) →
      (invokedFrames (schedRun α cap clock ops)).Pairwise (· ≤ ·)) := by
  obtain ⟨hwf, hacc, hfr⟩ := schedRun_inv cap clock ops
  refine ⟨hfr, ?_⟩
  intro horder
  have hsub1 : List.Sublist (invokedFrames (schedRun α cap clock ops))
      ((schedRun α cap clock ops).poppedLog.map fun q => q.1.frame) :=
    List.Sublist.map _ (List.filter_sublist _)
  have hsub2 : List.Sublist ((schedRun α cap clock ops).poppedLog.map fun q => q.1.frame)
      ((schedRun α cap clock ops).accepted.map ScheduledEvent.frame) := by
    rw [hacc, List.map_append]
    have hmm : ((schedRun α cap clock ops).poppedLog.map Prod.fst).map ScheduledEvent.frame =
        (schedRun α cap clock ops).poppedLog.map fun q => q.1.frame := by
      rw [List.map_map]
      rfl
    rw [← hmm]
    exact List.sublist_append_left _ _
  have hsub3 : List.Sublist ((schedRun α cap clock ops).accepted.map ScheduledEvent.frame)
      (scheduledFrames ops) := by
    have := schedFoldl_accepted_sublist cap ops
      ⟨clock, RealTimeScheduler.init α cap, [], []⟩
    simpa [schedRun] using this
  exact List.Pairwise.sublist (hsub1.trans (hsub2.trans hsub3)) horder

/-- Counterexample for C6 as stated: frames are quantified over arbitrary
producer values, yet when an event at frame 100 is scheduled before an
event at frame 0 and the clock has reached 100, one dispatch call invokes
them in queue order, producing the invocation frame sequence `[100, 0]`,
which is not non-decreasing. -/
theorem c6_dispatch_frame_order_counterexample :
    ¬ (invokedFrames (schedRun Nat 2 ⟨48000, 64, 0⟩
        [.schedule ⟨100, some 1⟩, .schedule ⟨0, some 2⟩, .advanceBy 100,
          .dispatch])).Pairwise (· ≤ ·) := by
  decide

/-- Witness for C6: the scheduler-test scenario (immediate event, then an
event 128 frames ahead dispatched only once the clock has advanced far
enough) satisfies the producer-order precondition, and the conclusion
holds on it. -/
theorem c6_dispatch_frame_order_witness :
    (scheduledFrames (α := Nat)
        [.schedule ⟨0, some 1⟩, .schedule ⟨128, some 2⟩, .dispatch, .advanceBy 64,
          .dispatch, .advanceBy 64, .dispatch]).Pairwise (· ≤ ·) ∧
    ((∀ p ∈ (schedRun Nat 8 ⟨48000, 64, 0⟩
          [.schedule ⟨0, some 1⟩, .schedule ⟨128, some 2⟩, .dispatch, .advanceBy 64,
            .dispatch, .advanceBy 64, .dispatch]).poppedLog, p.1.frame ≤ p.2) ∧
      (invokedFrames (schedRun Nat 8 ⟨48000, 64, 0⟩
          [.schedule ⟨0, some 1⟩, .schedule ⟨128, some 2⟩, .dispatch, .advanceBy 64,
            .dispatch, .advanceBy 64, .dispatch])).Pairwise (· ≤ ·)) :=
  ⟨by decide,
    (c6_dispatch_frame_order 8 ⟨48000, 64, 0⟩
      [.schedule ⟨0, some 1⟩, .schedule ⟨128, some 2⟩, .dispatch, .advanceBy 64,
        .dispatch, .advanceBy 64, .dispatch]).1,
    (c6_dispatch_frame_order 8 ⟨48000, 64, 0⟩
      [.schedule ⟨0, some 1⟩, .schedule ⟨128, some 2⟩, .dispatch, .advanceBy 64,
        .dispatch, .advanceBy 64, .dispatch]).2 (by decide)⟩

/-- C8: while bypass is set, `PluginNode::process` on a non-empty view
returns immediately: the host render callback is not invoked, no sample of
the view changes, and the node state (bypass included) is unchanged — so
the same holds for every further call for as long as bypass remains set. -/
theorem c8_plugin_bypass_passthrough (host : PluginHostSlot) (n : PluginNode)
    (buffer : BufView) (hb : n.bypassed = true) (hfr : 1 ≤ buffer.frames)
    (hch : 1 ≤ buffer.channels) :
    PluginNode.process host n buffer = (n, buffer, false) := by
  unfold PluginNode.process
  have hne : ¬(buffer.frames = 0 ∨ buffer.channels = 0) := by omega
  rw [if_neg hne, if_pos hb]

/-- Witness for C8: the host slot holds a callback that halves every
sample, yet the bypassed node leaves a concrete 4-sample view untouched
and the callback is not invoked. -/
theorem c8_plugin_bypass_passthrough_witness :
    bypassedPluginNode.bypassed = true ∧
    1 ≤ (⟨4, [[1/4, 1/2, 3/4, 1]]⟩ : BufView).frames ∧
    1 ≤ (⟨4, [[1/4, 1/2, 3/4, 1]]⟩ : BufView).channels ∧
    PluginNode.process
        (some fun rq => (⟨true, false⟩, ⟨rq.audioBuffer.frames,
          rq.audioBuffer.data.map fun row => row.map (· / 2)⟩))
        bypassedPluginNode ⟨4, [[1/4, 1/2, 3/4, 1]]⟩ =
      (bypassedPluginNode, ⟨4, [[1/4, 1/2, 3/4, 1]]⟩, false) :=
  ⟨rfl, by decide, by decide,
    c8_plugin_bypass_passthrough
      (some fun rq => (⟨true, false⟩, ⟨rq.audioBuffer.frames,
        rq.audioBuffer.data.map fun row => row.map (· / 2)⟩))
      bypassedPluginNode ⟨4, [[1/4, 1/2, 3/4, 1]]⟩ rfl (by decide) (by decide)⟩

/-- Counterexample for C9 as stated: `GainNode::setParameter` stores a
non-finite value instead of rejecting it — after
`setParameter("gain", NaN)` the gain of a default node is no longer the
default `1.0`. -/
theorem c9_gain_nonfinite_counterexample :
    ¬ (mkGainNode.setParameter "gain" ⟨0, false⟩).gain = mkGainNode.gain := by
  decide

/-- C9 (amended): `setParameter("gain", v)` stores `v` as the gain for
every value `v`, finite or not (the source performs no finiteness check),
and `setParameter` with any other name leaves the node unchanged. -/
theorem c9_gain_set_parameter (n : GainNode) (name : String) (v : Dbl) :
    (name = "gain" → n.setParameter name v = { n with gain := v }) ∧
    (name ≠ "gain" → n.setParameter name v = n) := by
  constructor <;> intro h <;> simp [GainNode.setParameter, h]

/-- Witness for C9: storing a non-finite gain on the default node, and
ignoring an unknown parameter name. -/
theorem c9_gain_set_parameter_witness :
    mkGainNode.setParameter "gain" ⟨0, false⟩ = { mkGainNode with gain := ⟨0, false⟩ } ∧
    mkGainNode.setParameter "frequency" ⟨2, true⟩ = mkGainNode :=
  ⟨(c9_gain_set_parameter mkGainNode "gain" ⟨0, false⟩).1 rfl,
    (c9_gain_set_parameter mkGainNode "frequency" ⟨2, true⟩).2 (by decide)⟩

theorem lookupAppendNone {κ β : Type} [DecidableEq κ] (l1 l2 : List (κ × β)) (k : κ)
    (h : l1.lookup k = none) : (l1 ++ l2).lookup k = l2.lookup k := by
  induction l1 with
  | nil => rfl
  | cons p rest ih =>
    rcases p with ⟨k', v⟩
    rw [List.cons_append]
    by_cases hk : k = k'
    · subst hk
      simp only [List.lookup, beq_self_eq_true] at h
      exact absurd h (by simp)
    · simp only [List.lookup, beq_false_of_ne hk] at h ⊢
      exact ih h

theorem lookupSingleton {κ β : Type} [DecidableEq κ] (k : κ) (v : β) :
    ([(k, v)] : List (κ × β)).lookup k = some v := by
  simp only [List.lookup, beq_self_eq_true]

theorem withTopology_nodes {Node : Type} (g : GraphState Node) :
    g.withTopology.nodes = g.nodes := rfl

theorem withTopology_heap {Node : Type} (g : GraphState Node) :
    g.withTopology.heap = g.heap := rfl

theorem withTopology_clock {Node : Type} (g : GraphState Node) :
    g.withTopology.clock = g.clock := rfl

theorem withTopology_connections {Node : Type} (g : GraphState Node) :
    g.withTopology.connections = g.connections := rfl

/-- C10: `SceneGraph::addNode` performs no validation against the
reserved output-bus sentinel — on any graph not yet holding a node under
`"__output__"`, adding a non-null node under that id succeeds and inserts
the node. -/
theorem c10_add_node_accepts_output_bus_id {Node : Type} (prep : Node → ℚ → Node)
    (g : GraphState Node) (n : Node) (hfree : g.nodes.lookup outputBusId = none) :
    (addNode prep g outputBusId (some n)).1 = true ∧
    (addNode prep g outputBusId (some n)).2.nodes.lookup outputBusId =
      some g.nextAddr := by
  unfold addNode
  simp only [hfree, Option.isSome_none, Bool.false_eq_true, if_false]
  refine ⟨trivial, ?_⟩
  rw [withTopology_nodes]
  show (g.nodes ++ [(outputBusId, g.nextAddr)]).lookup outputBusId = some g.nextAddr
  rw [lookupAppendNone _ _ _ hfree, lookupSingleton]

/-- Witness for C10: on the freshly constructed graph, adding a node under
`"__output__"` succeeds and the node is present afterwards. -/
theorem c10_add_node_accepts_output_bus_id_witness :
    emptyGraphU.nodes.lookup outputBusId = none ∧
    (addNode (fun (n : Unit) (_ : ℚ) => n) emptyGraphU outputBusId (some ())).1 = true ∧
    (addNode (fun (n : Unit) (_ : ℚ) => n) emptyGraphU outputBusId
        (some ())).2.nodes.lookup outputBusId = some 0 :=
  ⟨rfl,
    (c10_add_node_accepts_output_bus_id (fun n _ => n) emptyGraphU () rfl).1,
    (c10_add_node_accepts_output_bus_id (fun n _ => n) emptyGraphU () rfl).2⟩

/-- C3 (the divergence exhibited): schedule an automation for node `"a"`
at frame 0, remove `"a"` before it becomes due, then dispatch. The
scheduled closure captured the raw pointer (address 0) of the node; the
dispatcher executes it anyway, and the invocation trace records the
callback running against an address that is no longer allocated
(`(0, false)`) — a use-after-free in the C++ source rather than the
silent drop the claim describes. -/
theorem c3_dangling_automation_invoked :
    ((scheduleAutomation (addNode (fun (n : Unit) (_ : ℚ) => n) emptyGraphU "a" (some ())).2
        "a" (fun n => n) 0).map
      (fun g => (dispatchGraphEvents (removeNode g "a")).2)).toOption =
      some [(0, false)] := by
  decide

theorem dispatchGraphEvents_clock {Node : Type} (g : GraphState Node) :
    (dispatchGraphEvents g).1.clock = g.clock := rfl

theorem processNode_clock {Node : Type} (proc : Node → BufView → Node × BufView)
    (channelCount : Nat) (g : GraphState Node) (nodeId : String) :
    (processNode proc channelCount g nodeId).clock = g.clock := rfl

theorem foldProcess_clock {Node : Type} (proc : Node → BufView → Node × BufView)
    (channelCount : Nat) (order : List String) :
    ∀ (g : GraphState Node),
      (order.foldl (processNode proc channelCount) g).clock = g.clock := by
  induction order with
  | nil => intro g; rfl
  | cons x xs ih =>
    intro g
    rw [List.foldl_cons, ih, processNode_clock]

theorem ensureNodeBuffers_zero {Node : Type} (g : GraphState Node) :
    ensureNodeBuffers g 0 = .error () := rfl

theorem ensureNodeBuffers_ok {Node : Type} (g : GraphState Node) (frameCount : Nat)
    (h : frameCount ≠ 0) :
    ensureNodeBuffers g frameCount =
      .ok { g with
        nodeBuffers := g.nodes.foldl
          (fun bufs p =>
            alStore bufs p.1 (((bufs.lookup p.1).getD emptyNodeBuffer).configure frameCount))
          g.nodeBuffers
        clock := { g.clock with framesPerBuffer := frameCount } } := by
  unfold ensureNodeBuffers RenderClock.setFramesPerBuffer
  rw [if_neg h]

theorem renderBody_clock {Node : Type} (proc : Node → BufView → Node × BufView)
    (channelCount frameCount : Nat) (out0 : BufView) (g1 : GraphState Node) :
    (renderBody proc channelCount frameCount out0 g1).1.clock.frameTime =
      g1.clock.frameTime + frameCount := by
  show ((g1.renderOrder.foldl (processNode proc channelCount) g1).clock.advanceBy
    frameCount).frameTime = _
  rw [foldProcess_clock]
  rfl

/-- On an in-range output view with at least one frame, `render` completes
and nets the clock exactly `out.frames` forward. -/
theorem render_ok_of_inrange {Node : Type} (proc : Node → BufView → Node × BufView)
    (g : GraphState Node) (out : BufView) (hch : out.channels ≤ kMaxChannels)
    (hfr : out.frames ≤ kMaxFrames) (hpos : 1 ≤ out.frames) :
    ∃ g' o', render proc g out = .ok (g', o') ∧
      g'.clock.frameTime = g.clock.frameTime + out.frames := by
  unfold render
  have hover : ¬(kMaxChannels < out.channels ∨ kMaxFrames < out.frames) := by omega
  rw [if_neg hover]
  rw [ensureNodeBuffers_ok (dispatchGraphEvents g).1 out.frames (by omega)]
  refine ⟨(renderBody proc out.channels out.frames (out.fill 0)
      { (dispatchGraphEvents g).1 with
        nodeBuffers := (dispatchGraphEvents g).1.nodes.foldl
          (fun bufs p =>
            alStore bufs p.1 (((bufs.lookup p.1).getD emptyNodeBuffer).configure out.frames))
          (dispatchGraphEvents g).1.nodeBuffers
        clock := { (dispatchGraphEvents g).1.clock with framesPerBuffer := out.frames } }).1,
    (renderBody proc out.channels out.frames (out.fill 0)
      { (dispatchGraphEvents g).1 with
        nodeBuffers := (dispatchGraphEvents g).1.nodes.foldl
          (fun bufs p =>
            alStore bufs p.1 (((bufs.lookup p.1).getD emptyNodeBuffer).configure out.frames))
          (dispatchGraphEvents g).1.nodeBuffers
        clock := { (dispatchGraphEvents g).1.clock with framesPerBuffer := out.frames } }).2,
    rfl, ?_⟩
  rw [renderBody_clock]
  rfl

/-- C2 (amended): a `render` call whose output view is within the
compile-time maxima and has at least one frame advances the clock exactly
once, by exactly the view's frame count; a call with an oversized view
zero-fills the output and returns with the graph state — the clock
included — unchanged. -/
theorem c2_render_advances_clock {Node : Type} (proc : Node → BufView → Node × BufView)
    (g : GraphState Node) (out : BufView) :
    (out.channels ≤ kMaxChannels → out.frames ≤ kMaxFrames → 1 ≤ out.frames →
      ∃ g' o', render proc g out = .ok (g', o') ∧
        g'.clock.frameTime = g.clock.frameTime + out.frames) ∧
    (kMaxChannels < out.channels ∨ kMaxFrames < out.frames →
      render proc g out = .ok (g, out.fill 0)) := by
  constructor
  · intro hch hfr hpos
    exact render_ok_of_inrange proc g out hch hfr hpos
  · intro hover
    unfold render
    rw [if_pos hover]

/-- Counterexample for C2 as stated: on a view of 5 channels × 4 frames
(channel count above the maximum) `render` returns early and the clock
does not move, while the claim requires it to advance by the view's frame
count on every call, oversized views included. -/
theorem c2_render_advances_clock_counterexample :
    ((render (fun (n : Unit) (b : BufView) => (n, b)) emptyGraphU oversizedView).map
        (fun p => p.1.clock.frameTime)).toOption = some 0 ∧
    (0 : Nat) ≠ 0 + oversizedView.frames := by
  constructor
  · rfl
  · decide

/-- Witness for C2: rendering a 1×1 view on the fresh graph succeeds and
moves the clock from 0 to 1. -/
theorem c2_render_advances_clock_witness :
    oneFrameView.channels ≤ kMaxChannels ∧ oneFrameView.frames ≤ kMaxFrames ∧
    1 ≤ oneFrameView.frames ∧
    ∃ g' o', render (fun (n : Unit) (b : BufView) => (n, b)) emptyGraphU oneFrameView =
        .ok (g', o') ∧
      g'.clock.frameTime = emptyGraphU.clock.frameTime + oneFrameView.frames :=
  ⟨by decide, by decide, by decide,
    (c2_render_advances_clock (fun (n : Unit) (b : BufView) => (n, b)) emptyGraphU
        oneFrameView).1 (by decide) (by decide) (by decide)⟩

/-- C4 (amended): an output view whose channel count exceeds 4 or whose
frame count exceeds 1024 makes `render` fill the output with zeros and
return with no other effect; every other view with at least one frame
completes without an error. (A zero-frame view, by contrast, raises
`std::invalid_argument` from `RenderClock::setFramesPerBuffer` — see the
counterexample.) -/
theorem c4_render_recovery {Node : Type} (proc : Node → BufView → Node × BufView)
    (g : GraphState Node) (out : BufView) :
    (kMaxChannels < out.channels ∨ kMaxFrames < out.frames →
      render proc g out = .ok (g, out.fill 0)) ∧
    (out.channels ≤ kMaxChannels → out.frames ≤ kMaxFrames → 1 ≤ out.frames →
      ∃ g' o', render proc g out = .ok (g', o')) := by
  constructor
  · intro hover
    unfold render
    rw [if_pos hover]
  · intro hch hfr hpos
    obtain ⟨g', o', hr, -⟩ := render_ok_of_inrange proc g out hch hfr hpos
    exact ⟨g', o', hr⟩

/-- Counterexample for C4 as stated: a 1-channel view with zero frames is
within the compile-time maxima, yet `render` throws
(`RenderClock::setFramesPerBuffer(0)` raises `std::invalid_argument`)
instead of completing. -/
theorem c4_render_recovery_counterexample :
    render (fun (n : Unit) (b : BufView) => (n, b)) emptyGraphU zeroFrameView =
      .error () := rfl

theorem getD_mem_of_lt {α : Type} (l : List α) (d : α) (i : Nat) (h : i < l.length) :
    l.getD i d ∈ l := by
  rw [List.getD_eq_getElem l d h]
  exact List.getElem_mem h

theorem shape_setSample {chN frN : Nat} {b : BufView} (hb : BufShape chN frN b)
    (ch i : Nat) (hch : ch < chN) (x : ℚ) : BufShape chN frN (b.setSample ch i x) := by
  obtain ⟨hfr, hlen, hrows⟩ := hb
  refine ⟨hfr, by simp [BufView.setSample, hlen], ?_⟩
  intro row hrow
  rcases List.mem_or_eq_of_mem_set hrow with h | h
  · exact hrows row h
  · subst h
    rw [List.length_set]
    exact hrows _ (getD_mem_of_lt _ _ _ (by omega))

theorem sample_setSample {chN frN : Nat} {b : BufView} (hb : BufShape chN frN b)
    (ch i : Nat) (hch : ch < chN) (hi : i < frN) (x : ℚ) (ch' i' : Nat) :
    (b.setSample ch i x).sample ch' i' =
      if ch' = ch ∧ i' = i then x else b.sample ch' i' := by
  obtain ⟨hfr, hlen, hrows⟩ := hb
  have hchl : ch < b.data.length := by omega
  have hrowlen : (b.data.getD ch []).length = frN :=
    hrows _ (getD_mem_of_lt _ _ _ hchl)
  show ((b.data.set ch ((b.data.getD ch []).set i x)).getD ch' []).getD i' 0 =
    if ch' = ch ∧ i' = i then x else (b.data.getD ch' []).getD i' 0
  by_cases h1 : ch' = ch
  · subst h1
    rw [List.getD_eq_getElem?_getD (b.data.set ch' ((b.data.getD ch' []).set i x)) ch' [],
      List.getElem?_set_eq_of_lt _ hchl, Option.getD_some]
    by_cases h2 : i' = i
    · subst h2
      rw [List.getD_eq_getElem?_getD ((b.data.getD ch' []).set i' x) i' 0,
        List.getElem?_set_eq_of_lt _ (by omega), Option.getD_some]
      simp
    · rw [List.getD_eq_getElem?_getD ((b.data.getD ch' []).set i x) i' 0,
        List.getElem?_set_ne (fun hx => h2 hx.symm),
        ← List.getD_eq_getElem?_getD]
      simp [h2]
  · rw [List.getD_eq_getElem?_getD (b.data.set ch ((b.data.getD ch []).set i x)) ch' [],
      List.getElem?_set_ne (fun hx => h1 hx.symm),
      ← List.getD_eq_getElem?_getD]
    simp [h1]

theorem channelFold_spec {chN frN : Nat} (x : ℚ) (j : Nat) (oc : Nat) :
    ∀ (b : BufView), BufShape chN frN b → oc ≤ chN → j < frN →
      BufShape chN frN ((List.range oc).foldl (fun buf channel => buf.setSample channel j x) b) ∧
      ∀ ch i,
        ((List.range oc).foldl (fun buf channel => buf.setSample channel j x) b).sample ch i =
          if ch < oc ∧ i = j then x else b.sample ch i := by
  induction oc with
  | zero =>
    intro b hb _ _
    refine ⟨hb, ?_⟩
    intro ch i
    simp
  | succ k ih =>
    intro b hb hoc hj
    rw [List.range_succ, List.foldl_append]
    obtain ⟨hshape, hsamp⟩ := ih b hb (by omega) hj
    have hset := shape_setSample hshape k j (by omega) x
    refine ⟨by simpa using hset, ?_⟩
    intro ch i
    show ((_ : BufView).setSample k j x).sample ch i = _
    rw [sample_setSample hshape k j (by omega) hj x ch i, hsamp ch i]
    split_ifs <;> first | rfl | omega
theorem c7_writeFrame_spec {chN frN : Nat} (samples : List ℚ) (M N F : Nat) (g : ℚ)
    (hNM : N ≤ M) (hF : 2 * F ≤ N) (fOS : Nat)
    (hfos : fOS = if N ≤ F ∨ N = 0 then 0 else N - F)
    (b : BufView) (hb : BufShape chN frN b) (j : Nat) (hj : j < frN) :
    BufShape chN frN ((clipNodeZeroStart samples M N F g).writeFrame N N fOS chN b j) ∧
    ∀ ch i, ((clipNodeZeroStart samples M N F g).writeFrame N N fOS chN b j).sample ch i =
      if ch < chN ∧ i = j ∧ j < N then samples.getD j 0 * fadeEnvelope N F g j
      else b.sample ch i := by
  have hred : (clipNodeZeroStart samples M N F g).writeFrame N N fOS chN b j =
      if 0 + j < 0 ∨ N ≤ 0 + j then b
      else if M ≤ 0 + j - 0 then b
      else (List.range chN).foldl
        (fun buf channel => buf.setSample channel j
          (samples.getD (0 + j - 0) 0 *
            (if 0 < F ∧ fOS ≤ 0 + j then
              (if 0 < F ∧ 0 + j < 0 + F then
                g * ((((0 + j - 0 : Nat) : ℚ) + 1) / (F : ℚ))
              else g) *
                (((N - (0 + j) : Nat) : ℚ) / ((max 1 (min F N) : Nat) : ℚ))
            else
              if 0 < F ∧ 0 + j < 0 + F then
                g * ((((0 + j - 0 : Nat) : ℚ) + 1) / (F : ℚ))
              else g))) b := rfl
  simp only [Nat.zero_add, Nat.sub_zero] at hred
  by_cases hjN : N ≤ j
  · rw [show ((clipNodeZeroStart samples M N F g).writeFrame N N fOS chN b j) = b from by
      rw [hred]
      rw [if_pos (Or.inr hjN)]]
    refine ⟨hb, ?_⟩
    intro ch i
    split_ifs with h
    · omega
    · rfl
  · have hjN' : j < N := by omega
    have hamp : (if 0 < F ∧ fOS ≤ j then
          (if 0 < F ∧ j < F then g * (((j : ℚ) + 1) / (F : ℚ)) else g) *
            (((N - j : Nat) : ℚ) / ((max 1 (min F N) : Nat) : ℚ))
        else
          if 0 < F ∧ j < F then g * (((j : ℚ) + 1) / (F : ℚ)) else g) =
        fadeEnvelope N F g j := by
      subst hfos
      unfold fadeEnvelope
      by_cases hF0 : F = 0
      · subst hF0
        split_ifs <;> first | rfl | omega
      · have hF1 : 0 < F := Nat.pos_of_ne_zero hF0
        have hFN : F ≤ N := by omega
        have hNF : ¬(N ≤ F ∨ N = 0) := by omega
        rw [if_neg hNF]
        have hmin : min F N = F := Nat.min_eq_left hFN
        have hmax : max 1 F = F := Nat.max_eq_right hF1
        rw [hmin, hmax]
        split_ifs <;> first | rfl | omega
    rw [hred, if_neg (by omega : ¬(j < 0 ∨ N ≤ j)), if_neg (by omega : ¬(M ≤ j)), hamp]
    obtain ⟨hsh, hsam⟩ :=
      @channelFold_spec chN frN
        (samples.getD j 0 * fadeEnvelope N F g j) j chN b hb (le_refl chN) hj
    refine ⟨hsh, ?_⟩
    intro ch i
    rw [hsam ch i]
    split_ifs <;> first | rfl | omega

theorem c7_frameFold_spec {chN frN : Nat} (samples : List ℚ) (M N F : Nat) (g : ℚ)
    (hNM : N ≤ M) (hF : 2 * F ≤ N) (fOS : Nat)
    (hfos : fOS = if N ≤ F ∨ N = 0 then 0 else N - F) (Bk : Nat) :
    ∀ (b : BufView), BufShape chN frN b → Bk ≤ frN →
      BufShape chN frN
        ((List.range Bk).foldl
          ((clipNodeZeroStart samples M N F g).writeFrame N N fOS chN) b) ∧
      ∀ ch i, ((List.range Bk).foldl
          ((clipNodeZeroStart samples M N F g).writeFrame N N fOS chN) b).sample ch i =
        if ch < chN ∧ i < Bk ∧ i < N then samples.getD i 0 * fadeEnvelope N F g i
        else b.sample ch i := by
  induction Bk with
  | zero =>
    intro b hb _
    refine ⟨hb, ?_⟩
    intro ch i
    simp
  | succ k ih =>
    intro b hb hBk
    rw [List.range_succ, List.foldl_append]
    obtain ⟨hsh, hsam⟩ := ih b hb (by omega)
    obtain ⟨hsh', hsam'⟩ :=
      c7_writeFrame_spec samples M N F g hNM hF fOS hfos _ hsh k (by omega)
    refine ⟨by simpa using hsh', ?_⟩
    intro ch i
    show ((clipNodeZeroStart samples M N F g).writeFrame N N fOS chN _ k).sample ch i = _
    rw [hsam' ch i, hsam ch i]
    by_cases hik : i = k
    · subst hik
      split_ifs <;> first | rfl | omega
    · split_ifs <;> first | rfl | omega

theorem clipProcessEnvelope {chN frN : Nat} (samples : List ℚ) (M N F : Nat) (g : ℚ)
    (hNM : N ≤ M) (hF : 2 * F ≤ N)
    (out : BufView) (hshape : BufShape chN frN out) (ch i : Nat)
    (hch : ch < chN) (hi : i < frN) :
    (i < N →
      ((clipNodeZeroStart samples M N F g).process out).2.sample ch i =
        samples.getD i 0 * fadeEnvelope N F g i) ∧
    (N ≤ i →
      ((clipNodeZeroStart samples M N F g).process out).2.sample ch i =
        out.sample ch i) := by
  have hfr : out.frames = frN := hshape.1
  have hchn : out.channels = chN := hshape.2.1
  have hfr0 : ¬(out.frames = 0) := by omega
  by_cases hM0 : M = 0
  · have hN0 : N = 0 := by omega
    have hproc : (clipNodeZeroStart samples M N F g).process out =
        ({ clipNodeZeroStart samples M N F g with processedFrames := 0 + out.frames },
          out) := by
      show (if out.frames = 0 then ((clipNodeZeroStart samples M N F g), out)
        else if (ClipBufferData.isEmpty ⟨"clip", 48000, M, [some samples]⟩) = true then
          ({ clipNodeZeroStart samples M N F g with processedFrames := 0 + out.frames }, out)
        else _) = _
      rw [if_neg hfr0, if_pos (by simp [ClipBufferData.isEmpty, hM0])]
    rw [hproc]
    exact ⟨fun hiN => by omega, fun _ => rfl⟩
  · have hEE : min (max 0 N) (0 + M) = N := by
      rw [Nat.zero_add, Nat.zero_max]
      exact Nat.min_eq_left hNM
    have hproc : (clipNodeZeroStart samples M N F g).process out =
        ({ clipNodeZeroStart samples M N F g with processedFrames := 0 + out.frames },
          (List.range out.frames).foldl
            ((clipNodeZeroStart samples M N F g).writeFrame
              (min (max 0 N) (0 + M)) (min (max 0 N) (0 + M) - 0)
              (if min (max 0 N) (0 + M) - 0 ≤ F ∨ min (max 0 N) (0 + M) - 0 = 0 then 0
                else min (max 0 N) (0 + M) - F)
              out.channels)
            out) := by
      show (if out.frames = 0 then ((clipNodeZeroStart samples M N F g), out)
        else if (ClipBufferData.isEmpty ⟨"clip", 48000, M, [some samples]⟩) = true then
          ({ clipNodeZeroStart samples M N F g with processedFrames := 0 + out.frames }, out)
        else if out.channels = 0 ∨
            (ClipBufferData.channelCount ⟨"clip", 48000, M, [some samples]⟩) = 0 ∨
            M = 0 then
          ({ clipNodeZeroStart samples M N F g with processedFrames := 0 + out.frames }, out)
        else _) = _
      rw [if_neg hfr0, if_neg (by simp [ClipBufferData.isEmpty, hM0]),
        if_neg (by
          simp only [ClipBufferData.channelCount, List.length_singleton]
          omega)]
      rfl
    rw [hproc]
    obtain ⟨-, hsam⟩ :=
      @c7_frameFold_spec chN frN samples M N F g hNM hF
        (if N ≤ F ∨ N = 0 then 0 else N - F) rfl frN out hshape (le_refl frN)
    constructor
    · intro hiN
      show ((List.range out.frames).foldl
          ((clipNodeZeroStart samples M N F g).writeFrame
            (min (max 0 N) (0 + M)) (min (max 0 N) (0 + M) - 0)
            (if min (max 0 N) (0 + M) - 0 ≤ F ∨ min (max 0 N) (0 + M) - 0 = 0 then 0
              else min (max 0 N) (0 + M) - F)
            out.channels)
          out).sample ch i = _
      simp only [hEE, Nat.sub_zero, hfr, hchn]
      rw [hsam ch i, if_pos (⟨hch, by omega, hiN⟩ : ch < chN ∧ i < frN ∧ i < N)]
    · intro hiN
      show ((List.range out.frames).foldl
          ((clipNodeZeroStart samples M N F g).writeFrame
            (min (max 0 N) (0 + M)) (min (max 0 N) (0 + M) - 0)
            (if min (max 0 N) (0 + M) - 0 ≤ F ∨ min (max 0 N) (0 + M) - 0 = 0 then 0
              else min (max 0 N) (0 + M) - F)
            out.channels)
          out).sample ch i = out.sample ch i
      simp only [hEE, Nat.sub_zero, hfr, hchn]
      rw [hsam ch i, if_neg (by omega : ¬(ch < chN ∧ i < frN ∧ i < N))]

/-- C7 (amended): with a registered mono clip of at least `N` frames,
`start_frame = 0`, `end_frame = N`, `fade_in_frames = fade_out_frames = F`
with `2F ≤ N`, gain `g`, and `processed_frames = 0`, a `process` call
writes at every absolute frame `i < N` within the block the clip sample
multiplied by `g·(i+1)/F` for `i ∈ [0, F)`, by `g` for `i ∈ [F, N−F)`,
and by `g·(N−i)/F` for `i ∈ [N−F, N)`; frames at `i ≥ N` are left
untouched. (The fade-in factor is `(i+1)/F`, not the claimed `i/F`.) -/
theorem c7_clip_fade_envelope {chN frN : Nat} (samples : List ℚ) (M N F : Nat) (g : ℚ)
    (_hlen : M ≤ samples.length) (hNM : N ≤ M) (hF : 2 * F ≤ N)
    (out : BufView) (hshape : BufShape chN frN out) (ch i : Nat)
    (hch : ch < chN) (hi : i < frN) :
    (i < N →
      ((clipNodeZeroStart samples M N F g).process out).2.sample ch i =
        samples.getD i 0 * fadeEnvelope N F g i) ∧
    (N ≤ i →
      ((clipNodeZeroStart samples M N F g).process out).2.sample ch i =
        out.sample ch i) :=
  clipProcessEnvelope samples M N F g hNM hF out hshape ch i hch hi

/-- Counterexample for C7 as stated: with a 2-frame clip `[1, 1]`,
`N = 2`, `F = 1`, `gain = 1`, the claimed fade-in amplitude at absolute
frame 0 is `g·0/F = 0`, but the source computes `(0+1)/F = 1` and writes
sample `1` rather than `0`. -/
theorem c7_clip_fade_envelope_counterexample :
    ((clipNodeZeroStart [1, 1] 2 2 1 1).process ⟨2, [[0, 0]]⟩).2.sample 0 0 = 1 ∧
    (1 : ℚ) ≠ ([1, 1] : List ℚ).getD 0 0 * (1 * ((0 : ℚ) / 1)) := by
  constructor
  · have h := (@clipProcessEnvelope 1 2 [1, 1] 2 2 1 1
      (by omega) (by omega) ⟨2, [[0, 0]]⟩ ⟨rfl, rfl, by simp⟩ 0 0
      (by omega) (by omega)).1 (by omega)
    rw [h]
    norm_num [fadeEnvelope]
  · norm_num

/-- Witness for C7: the spec's own fade scenario (4-frame clip of ones,
`F = 2`, `gain = 1/2`) satisfies the hypotheses, and the envelope theorem
applies to it. -/
theorem c7_clip_fade_envelope_witness :
    (4 ≤ ([1, 1, 1, 1] : List ℚ).length ∧ 2 * 2 ≤ 4 ∧
      BufShape 1 4 ⟨4, [[0, 0, 0, 0]]⟩) ∧
    ((0 < 4 →
        ((clipNodeZeroStart [1, 1, 1, 1] 4 4 2 (1 / 2)).process
            ⟨4, [[0, 0, 0, 0]]⟩).2.sample 0 0 =
          ([1, 1, 1, 1] : List ℚ).getD 0 0 * fadeEnvelope 4 2 (1 / 2) 0) ∧
      (4 ≤ 0 →
        ((clipNodeZeroStart [1, 1, 1, 1] 4 4 2 (1 / 2)).process
            ⟨4, [[0, 0, 0, 0]]⟩).2.sample 0 0 =
          BufView.sample ⟨4, [[0, 0, 0, 0]]⟩ 0 0)) :=
  ⟨⟨by decide, by decide, ⟨rfl, rfl, by simp⟩⟩,
    @c7_clip_fade_envelope 1 4 [1, 1, 1, 1] 4 4 2 (1 / 2)
      (by decide) (by decide) (by decide) ⟨4, [[0, 0, 0, 0]]⟩
      ⟨rfl, rfl, by simp⟩ 0 0 (by decide) (by decide)⟩

/-- Executable anchor for the spec's fade scenario: the rendered samples
are `1/4, 1/2, 1/2, 1/4`. -/
theorem clip_fade_scenario_output :
    ((clipNodeZeroStart [1, 1, 1, 1] 4 4 2 (1 / 2)).process
        ⟨4, [[0, 0, 0, 0]]⟩).2.sample 0 0 = 1 / 4 ∧
    ((clipNodeZeroStart [1, 1, 1, 1] 4 4 2 (1 / 2)).process
        ⟨4, [[0, 0, 0, 0]]⟩).2.sample 0 1 = 1 / 2 ∧
    ((clipNodeZeroStart [1, 1, 1, 1] 4 4 2 (1 / 2)).process
        ⟨4, [[0, 0, 0, 0]]⟩).2.sample 0 2 = 1 / 2 ∧
    ((clipNodeZeroStart [1, 1, 1, 1] 4 4 2 (1 / 2)).process
        ⟨4, [[0, 0, 0, 0]]⟩).2.sample 0 3 = 1 / 4 := by
  have h := fun (i : Nat) (hi : i < 4) => (@clipProcessEnvelope 1 4
    [1, 1, 1, 1] 4 4 2 (1 / 2) (by omega) (by omega) ⟨4, [[0, 0, 0, 0]]⟩
    ⟨rfl, rfl, by simp⟩ 0 i (by omega) hi).1 hi
  refine ⟨?_, ?_, ?_, ?_⟩
  · rw [h 0 (by omega)]
    norm_num [fadeEnvelope]
  · rw [h 1 (by omega)]
    norm_num [fadeEnvelope]
  · rw [h 2 (by omega)]
    norm_num [fadeEnvelope]
  · rw [h 3 (by omega)]
    norm_num [fadeEnvelope]

/-- Witness for C4: the oversized view is zeroed with no other effect, and
a 1×1 view renders without error. -/
theorem c4_render_recovery_witness :
    (kMaxChannels < oversizedView.channels ∨ kMaxFrames < oversizedView.frames) ∧
    render (fun (n : Unit) (b : BufView) => (n, b)) emptyGraphU oversizedView =
      .ok (emptyGraphU, oversizedView.fill 0) ∧
    ∃ g' o', render (fun (n : Unit) (b : BufView) => (n, b)) emptyGraphU oneFrameView =
      .ok (g', o') :=
  ⟨by decide,
    (c4_render_recovery (fun (n : Unit) (b : BufView) => (n, b)) emptyGraphU
        oversizedView).1 (by decide),
    (c4_render_recovery (fun (n : Unit) (b : BufView) => (n, b)) emptyGraphU
        oneFrameView).2 (by decide) (by decide) (by decide)⟩

/-! ### Association-list and list lemmas for the topology proof -/

theorem lookupIsSomeIffMem {κ β : Type} [DecidableEq κ] (l : List (κ × β)) (k : κ) :
    (l.lookup k).isSome = true ↔ k ∈ l.map Prod.fst := by
  induction l with
  | nil => simp [List.lookup]
  | cons p rest ih =>
    obtain ⟨k1, v1⟩ := p
    by_cases hk : k = k1
    · subst hk
      simp [List.lookup]
    · simp only [List.lookup, beq_false_of_ne hk, List.map_cons, List.mem_cons]
      rw [ih]
      constructor
      · exact Or.inr
      · rintro (h | h)
        · exact absurd h hk
        · exact h

theorem lookupSingletonNe {κ β : Type} [DecidableEq κ] (k u : κ) (v : β) (h : u ≠ k) :
    ([(k, v)] : List (κ × β)).lookup u = none := by
  simp [List.lookup, beq_false_of_ne h]

theorem lookupAppendSome {κ β : Type} [DecidableEq κ] (l1 l2 : List (κ × β)) (k : κ)
    (x : β) (h : l1.lookup k = some x) : (l1 ++ l2).lookup k = some x := by
  induction l1 with
  | nil => cases h
  | cons p rest ih =>
    obtain ⟨k1, v1⟩ := p
    rw [List.cons_append]
    by_cases hk : k = k1
    · subst hk
      simp only [List.lookup, beq_self_eq_true] at h ⊢
      exact h
    · simp only [List.lookup, beq_false_of_ne hk] at h ⊢
      exact ih h

theorem alSet_keys {κ β : Type} [DecidableEq κ] (m : List (κ × β)) (k : κ) (v : β) :
    (alSet m k v).map Prod.fst = m.map Prod.fst := by
  induction m with
  | nil => rfl
  | cons p rest ih =>
    simp only [alSet, List.map_cons] at ih ⊢
    by_cases h : p.1 = k
    · rw [if_pos h, ih, ← h]
    · rw [if_neg h, ih]

theorem alSet_lookup_self {κ β : Type} [DecidableEq κ] (m : List (κ × β)) (k : κ)
    (v : β) (h : k ∈ m.map Prod.fst) : (alSet m k v).lookup k = some v := by
  induction m with
  | nil => cases h
  | cons p rest ih =>
    obtain ⟨k1, v1⟩ := p
    simp only [alSet, List.map_cons]
    by_cases h1 : k1 = k
    · rw [if_pos h1]
      simp [List.lookup]
    · rw [if_neg h1]
      have hk : k ≠ k1 := fun he => h1 he.symm
      simp only [List.lookup, beq_false_of_ne hk]
      rcases List.mem_cons.mp h with he | he
      · exact absurd he.symm h1
      · exact ih he

theorem alSet_lookup_ne {κ β : Type} [DecidableEq κ] (m : List (κ × β)) (k k' : κ)
    (v : β) (h : k' ≠ k) : (alSet m k v).lookup k' = m.lookup k' := by
  induction m with
  | nil => rfl
  | cons p rest ih =>
    obtain ⟨k1, v1⟩ := p
    simp only [alSet, List.map_cons]
    by_cases h1 : k1 = k
    · rw [if_pos h1]
      have hk : k' ≠ k1 := h1 ▸ h
      simp only [List.lookup, beq_false_of_ne h, beq_false_of_ne hk]
      exact ih
    · rw [if_neg h1]
      by_cases h2 : k' = k1
      · subst h2
        simp [List.lookup]
      · simp only [List.lookup, beq_false_of_ne h2]
        exact ih

theorem mapUpdateLookup {κ β : Type} [DecidableEq κ] (m : List (κ × List β)) (k u : κ)
    (v : β) :
    (m.map fun p => if p.1 = k then (p.1, p.2 ++ [v]) else p).lookup u =
      if u = k then (m.lookup u).map (fun l => l ++ [v]) else m.lookup u := by
  induction m with
  | nil =>
    by_cases h : u = k
    · rw [if_pos h]; rfl
    · rw [if_neg h]; rfl
  | cons p rest ih =>
    obtain ⟨k1, l1⟩ := p
    simp only [List.map_cons]
    by_cases h1 : k1 = k
    · rw [if_pos h1]
      by_cases hu : u = k1
      · subst hu
        rw [if_pos h1]
        simp [List.lookup]
      · simp only [List.lookup, beq_false_of_ne hu]
        by_cases huk : u = k
        · rw [if_pos huk] at ih ⊢
          exact ih
        · rw [if_neg huk] at ih ⊢
          exact ih
    · rw [if_neg h1]
      by_cases hu : u = k1
      · subst hu
        have huk : u ≠ k := fun he => h1 (by rw [← he])
        rw [if_neg huk]
        simp [List.lookup]
      · simp only [List.lookup, beq_false_of_ne hu]
        by_cases huk : u = k
        · rw [if_pos huk] at ih ⊢
          exact ih
        · rw [if_neg huk] at ih ⊢
          exact ih

theorem alPush_lookup_getD {κ β : Type} [DecidableEq κ] (m : List (κ × List β))
    (k u : κ) (v : β) :
    ((alPush m k v).lookup u).getD [] =
      (m.lookup u).getD [] ++ (if u = k then [v] else []) := by
  unfold alPush
  by_cases hs : (m.lookup k).isSome = true
  · rw [if_pos hs, mapUpdateLookup]
    by_cases hu : u = k
    · rw [if_pos hu, if_pos hu, hu]
      obtain ⟨x, hx⟩ := Option.isSome_iff_exists.mp hs
      rw [hx]
      rfl
    · rw [if_neg hu, if_neg hu, List.append_nil]
  · rw [if_neg hs]
    have hnone : m.lookup k = none := by
      cases hl : m.lookup k
      · rfl
      · rw [hl] at hs; exact absurd rfl hs
    by_cases hu : u = k
    · subst hu
      rw [lookupAppendNone _ _ _ hnone, lookupSingleton, hnone, if_pos rfl]
      rfl
    · rw [if_neg hu, List.append_nil]
      cases hl : m.lookup u with
      | none => rw [lookupAppendNone _ _ _ hl, lookupSingletonNe _ _ _ hu]
      | some x => rw [lookupAppendSome _ _ _ _ hl]

theorem seedKeys (ids : List String) :
    ((ids.map fun id => (id, (0 : Nat))).map Prod.fst) = ids := by
  induction ids with
  | nil => rfl
  | cons a t ih => simp only [List.map_cons, ih]

theorem seedLookup (ids : List String) (v : String) (h : v ∈ ids) :
    (ids.map fun id => (id, (0 : Nat))).lookup v = some 0 := by
  induction ids with
  | nil => cases h
  | cons a t ih =>
    by_cases hv : v = a
    · subst hv
      simp [List.lookup]
    · rcases List.mem_cons.mp h with he | he
      · exact absurd he hv
      · simp only [List.map_cons, List.lookup, beq_false_of_ne hv]
        exact ih he

theorem filterZeroMem (m : List (String × Nat)) (hk : (m.map Prod.fst).Nodup)
    (v : String) :
    v ∈ (m.filter fun p => p.2 = 0).map Prod.fst ↔ m.lookup v = some 0 := by
  induction m with
  | nil => simp [List.lookup]
  | cons p rest ih =>
    obtain ⟨k1, n1⟩ := p
    simp only [List.map_cons, List.nodup_cons] at hk
    obtain ⟨hk1, hkrest⟩ := hk
    by_cases hv : v = k1
    · subst hv
      simp only [List.lookup, beq_self_eq_true]
      by_cases hn : n1 = 0
      · subst hn
        rw [List.filter_cons_of_pos (by simp)]
        simp
      · rw [List.filter_cons_of_neg (by simp [hn])]
        constructor
        · intro hm
          exact absurd
            (((List.filter_sublist rest).map Prod.fst).mem hm) hk1
        · intro he
          exact absurd (Option.some.inj he) hn
    · have hlk : (List.lookup v ((k1, n1) :: rest)) = rest.lookup v := by
        simp only [List.lookup, beq_false_of_ne hv]
      rw [hlk]
      by_cases hn : n1 = 0
      · subst hn
        rw [List.filter_cons_of_pos (by simp)]
        simp only [List.map_cons, List.mem_cons]
        rw [ih hkrest]
        constructor
        · rintro (h | h)
          · exact absurd h hv
          · exact h
        · exact Or.inr
      · rw [List.filter_cons_of_neg (by simp [hn])]
        exact ih hkrest

theorem filterFlipLength {α : Type} (p q : α → Bool) (l : List α) (hnd : l.Nodup)
    (a : α) (ha : a ∈ l) (hpa : p a = true) (hqa : q a = false)
    (hother : ∀ b ∈ l, b ≠ a → p b = q b) :
    (l.filter p).length = (l.filter q).length + 1 := by
  induction l with
  | nil => cases ha
  | cons x t ih =>
    rw [List.nodup_cons] at hnd
    rcases List.mem_cons.mp ha with h | h
    · subst h
      rw [List.filter_cons_of_pos hpa, List.filter_cons_of_neg (by simp [hqa])]
      rw [List.length_cons]
      have heq : t.filter p = t.filter q :=
        List.filter_congr fun b hb =>
          hother b (List.mem_cons_of_mem _ hb) (fun hba => hnd.1 (hba ▸ hb))
      rw [heq]
    · have hxa : x ≠ a := fun hxa => hnd.1 (hxa ▸ h)
      have hx : p x = q x := hother x (List.mem_cons_self x t) hxa
      have ihr := ih hnd.2 h fun b hb hba => hother b (List.mem_cons_of_mem _ hb) hba
      cases hpx : p x with
      | true =>
        rw [List.filter_cons_of_pos hpx, List.filter_cons_of_pos (by rw [← hx]; exact hpx)]
        rw [List.length_cons, List.length_cons, ihr]
      | false =>
        rw [List.filter_cons_of_neg (by simp [hpx]),
          List.filter_cons_of_neg (by simp [← hx, hpx])]
        exact ihr

theorem listBefore_append (l t : List String) (u v : String) (h : ListBefore l u v) :
    ListBefore (l ++ t) u v := by
  obtain ⟨l1, l2, l3, he⟩ := h
  exact ⟨l1, l2, l3 ++ t, by rw [he]; simp⟩

theorem mapFstFilterNe {β : Type} (l : List (String × β)) (id : String) :
    (l.filter fun p => p.1 ≠ id).map Prod.fst =
      (l.map Prod.fst).filter fun k => k ≠ id := by
  induction l with
  | nil => rfl
  | cons p t ih =>
    by_cases hp : p.1 = id
    · rw [List.filter_cons_of_neg (by simp [hp]), List.map_cons,
        List.filter_cons_of_neg (by simp [hp])]
      exact ih
    · rw [List.filter_cons_of_pos (by simp [hp]), List.map_cons, List.map_cons,
        List.filter_cons_of_pos (by simp [hp]), ih]

theorem nodupSubsetFull (l m : List String) (hl : l.Nodup) (hm : m.Nodup)
    (hsub : ∀ x ∈ l, x ∈ m) (hlen : m.length ≤ l.length) : ∀ x ∈ m, x ∈ l := by
  have hfin : l.toFinset = m.toFinset := by
    apply Finset.eq_of_subset_of_card_le
    · intro x hx
      rw [List.mem_toFinset] at hx ⊢
      exact hsub x hx
    · rw [List.toFinset_card_of_nodup hl, List.toFinset_card_of_nodup hm]
      exact hlen
  intro x hx
  have hx2 : x ∈ l.toFinset := by
    rw [hfin, List.mem_toFinset]
    exact hx
  rwa [List.mem_toFinset] at hx2

theorem tailFoldNoop (m : List (String × Nat)) (r : List String)
    (h : ∀ p ∈ m, p.1 ∈ r) :
    m.foldl (fun acc p => if 0 < p.2 ∧ p.1 ∉ acc then acc ++ [p.1] else acc) r = r := by
  induction m with
  | nil => rfl
  | cons p t ih =>
    simp only [List.foldl_cons]
    rw [if_neg fun hcon => hcon.2 (h p (List.mem_cons_self p t))]
    exact ih fun q hq => h q (List.mem_cons_of_mem _ hq)

theorem edgesFromNodup (edges : List Connection) (hnd : edges.Nodup) (cur : String) :
    ((edges.filter fun c => decide (c.source = cur)).map
      fun c => c.destination).Nodup := by
  apply (List.nodup_map_iff_inj_on (hnd.filter _)).mpr
  intro c1 h1 c2 h2 he
  have hs1 := decide_eq_true_eq.mp (List.mem_filter.mp h1).2
  have hs2 := decide_eq_true_eq.mp (List.mem_filter.mp h2).2
  obtain ⟨s1, d1⟩ := c1
  obtain ⟨s2, d2⟩ := c2
  rw [show s1 = cur from hs1, show s2 = cur from hs2,
    show d1 = d2 from he]

theorem remInDeg_nil (edges : List Connection) (v : String) :
    remInDeg edges [] v = (edgesTo edges v).length := by
  unfold remInDeg
  rw [List.filter_eq_self.mpr fun c _ => by simp]

theorem midInDeg_nil (edges : List Connection) (acc : List String) (cur : String)
    (v : String) : midInDeg edges acc cur [] v = remInDeg edges acc v := by
  unfold midInDeg remInDeg
  have h : ∀ c ∈ edgesTo edges v,
      stillCounted acc cur [] c = decide (c.source ∉ acc) := by
    intro c _
    simp [stillCounted]
  rw [List.filter_congr h]

theorem nodeEdgesWf (nodeIds : List String) (conns : List Connection)
    (hcn : conns.Nodup) : EdgesWf nodeIds (nodeEdges nodeIds conns) := by
  refine ⟨hcn.filter _, ?_, ?_⟩
  · intro c hc
    exact (decide_eq_true_eq.mp (List.mem_filter.mp hc).2).1
  · intro c hc
    exact (decide_eq_true_eq.mp (List.mem_filter.mp hc).2).2.2

theorem acyclicConnsNil : AcyclicConns [] := by
  have hgen : ∀ a b : String, ¬ Relation.TransGen (EdgeRel ([] : List Connection)) a b := by
    intro a b hab
    induction hab with
    | single he => exact absurd he.1 (List.not_mem_nil _)
    | tail _ he _ => exact absurd he.1 (List.not_mem_nil _)
  intro v h
  exact hgen v v h

theorem cycleOfPreds (E : String → String → Prop) (S : Finset String)
    (hne : S.Nonempty) (hpred : ∀ v ∈ S, ∃ u ∈ S, E u v) :
    ∃ v, Relation.TransGen E v v := by
  classical
  obtain ⟨v0, hv0⟩ := hne
  have hg : ∀ x : {v // v ∈ S}, ∃ u : {v // v ∈ S}, E u.1 x.1 := by
    rintro ⟨x, hx⟩
    obtain ⟨u, hu, he⟩ := hpred x hx
    exact ⟨⟨u, hu⟩, he⟩
  choose g hgE using hg
  have hstep : ∀ n : Nat, E (g^[n + 1] ⟨v0, hv0⟩).1 (g^[n] ⟨v0, hv0⟩).1 := by
    intro n
    rw [Function.iterate_succ_apply' g n _]
    exact hgE _
  have hchain : ∀ k n : Nat,
      Relation.TransGen E (g^[n + k + 1] ⟨v0, hv0⟩).1 (g^[n] ⟨v0, hv0⟩).1 := by
    intro k
    induction k with
    | zero => intro n; exact Relation.TransGen.single (hstep n)
    | succ k ih =>
      intro n
      have h1 : E (g^[n + k + 2] ⟨v0, hv0⟩).1 (g^[n + k + 1] ⟨v0, hv0⟩).1 :=
        hstep (n + k + 1)
      have hidx : n + (k + 1) + 1 = n + k + 2 := by omega
      rw [hidx]
      exact Relation.TransGen.head h1 (ih n)
  have hmap : ∀ a ∈ Finset.range (S.card + 1),
      g^[a] ⟨v0, hv0⟩ ∈ (Finset.univ : Finset {v // v ∈ S}) := by
    intro a _
    exact Finset.mem_univ _
  have hcard : (Finset.univ : Finset {v // v ∈ S}).card <
      (Finset.range (S.card + 1)).card := by
    rw [Finset.card_univ, Fintype.card_coe, Finset.card_range]
    omega
  obtain ⟨i, _, j, _, hij, hfe⟩ :=
    Finset.exists_ne_map_eq_of_card_lt_of_maps_to hcard hmap
  rcases Nat.lt_or_ge i j with hlt | hge
  · refine ⟨(g^[i] ⟨v0, hv0⟩).1, ?_⟩
    have hch := hchain (j - i - 1) i
    have hidx : i + (j - i - 1) + 1 = j := by omega
    rw [hidx, ← hfe] at hch
    exact hch
  · have hlt : j < i := by omega
    refine ⟨(g^[j] ⟨v0, hv0⟩).1, ?_⟩
    have hch := hchain (i - j - 1) j
    have hidx : j + (i - j - 1) + 1 = i := by omega
    rw [hidx, hfe] at hch
    exact hch

/-! ### The first pass of `rebuildTopology` builds the retained-edge maps -/

theorem buildStep (nodeIds : List String) (p : List Connection) (b : TopoBuild)
    (c : Connection) (hinv : BuildInv nodeIds p b) :
    BuildInv nodeIds (p ++ [c]) (topoStep nodeIds b c) := by
  obtain ⟨hkeys, hval, hadj⟩ := hinv
  by_cases hs : c.source ∈ nodeIds
  · by_cases hbus : c.destination = outputBusId
    · have hne : nodeEdges nodeIds (p ++ [c]) = nodeEdges nodeIds p := by
        unfold nodeEdges
        rw [List.filter_append, List.filter_cons_of_neg (by simp [hbus]),
          List.filter_nil, List.append_nil]
      have hstep : topoStep nodeIds b c =
          { b with sourcesFeedingOutput :=
            if c.source ∈ b.sourcesFeedingOutput then b.sourcesFeedingOutput
            else b.sourcesFeedingOutput ++ [c.source] } := by
        unfold topoStep
        rw [if_pos hs, if_pos hbus]
      rw [hstep]
      refine ⟨hkeys, ?_, ?_⟩
      · intro v hv
        show b.indegree.lookup v = _
        rw [hne]
        exact hval v hv
      · intro u
        show ((b.adjacency.lookup u).getD []) = _
        rw [hne]
        exact hadj u
    · by_cases hd : c.destination ∈ nodeIds
      · have hne : nodeEdges nodeIds (p ++ [c]) = nodeEdges nodeIds p ++ [c] := by
          unfold nodeEdges
          rw [List.filter_append, List.filter_cons_of_pos (by simp [hs, hbus, hd]),
            List.filter_nil]
        have hstep : topoStep nodeIds b c =
            { b with
              adjacency := alPush b.adjacency c.source c.destination
              inboundEdges := alPush b.inboundEdges c.destination c.source
              indegree := alSet b.indegree c.destination
                ((b.indegree.lookup c.destination).getD 0 + 1) } := by
          unfold topoStep
          rw [if_pos hs, if_neg hbus, if_pos hd]
        rw [hstep]
        refine ⟨?_, ?_, ?_⟩
        · show (alSet b.indegree c.destination
            ((b.indegree.lookup c.destination).getD 0 + 1)).map Prod.fst = nodeIds
          rw [alSet_keys]
          exact hkeys
        · intro v hv
          show (alSet b.indegree c.destination
            ((b.indegree.lookup c.destination).getD 0 + 1)).lookup v = _
          rw [hne]
          by_cases hvd : v = c.destination
          · subst hvd
            rw [hval _ hv, alSet_lookup_self _ _ _ (by rw [hkeys]; exact hv)]
            have hcount : edgesTo (nodeEdges nodeIds p ++ [c]) c.destination =
                edgesTo (nodeEdges nodeIds p) c.destination ++ [c] := by
              unfold edgesTo
              rw [List.filter_append, List.filter_cons_of_pos (by simp), List.filter_nil]
            rw [hcount, List.length_append]
            rfl
          · rw [alSet_lookup_ne _ _ _ _ hvd, hval v hv]
            have hcount : edgesTo (nodeEdges nodeIds p ++ [c]) v =
                edgesTo (nodeEdges nodeIds p) v := by
              unfold edgesTo
              rw [List.filter_append,
                List.filter_cons_of_neg (by simp; exact fun he => hvd he.symm),
                List.filter_nil, List.append_nil]
            rw [hcount]
        · intro u
          show ((alPush b.adjacency c.source c.destination).lookup u).getD [] = _
          rw [alPush_lookup_getD, hadj u, hne]
          have hfil : (nodeEdges nodeIds p ++ [c]).filter
              (fun e => decide (e.source = u)) =
              (nodeEdges nodeIds p).filter (fun e => decide (e.source = u)) ++
                (if u = c.source then [c] else []) := by
            rw [List.filter_append]
            by_cases hu : u = c.source
            · rw [if_pos hu, List.filter_cons_of_pos (by simp [hu]), List.filter_nil]
            · rw [if_neg hu,
                List.filter_cons_of_neg (by simp; exact fun he => hu he.symm),
                List.filter_nil]
          rw [hfil, List.map_append]
          by_cases hu : u = c.source
          · rw [if_pos hu, if_pos hu]
            rfl
          · rw [if_neg hu, if_neg hu]
            rfl
      · have hne : nodeEdges nodeIds (p ++ [c]) = nodeEdges nodeIds p := by
          unfold nodeEdges
          rw [List.filter_append, List.filter_cons_of_neg (by simp [hd]),
            List.filter_nil, List.append_nil]
        have hstep : topoStep nodeIds b c = b := by
          unfold topoStep
          rw [if_pos hs, if_neg hbus, if_neg hd]
        rw [hstep]
        refine ⟨hkeys, ?_, ?_⟩
        · intro v hv
          rw [hne]
          exact hval v hv
        · intro u
          rw [hne]
          exact hadj u
  · have hne : nodeEdges nodeIds (p ++ [c]) = nodeEdges nodeIds p := by
      unfold nodeEdges
      rw [List.filter_append, List.filter_cons_of_neg (by simp [hs]),
        List.filter_nil, List.append_nil]
    have hstep : topoStep nodeIds b c = b := by
      unfold topoStep
      rw [if_neg hs]
    rw [hstep]
    refine ⟨hkeys, ?_, ?_⟩
    · intro v hv
      rw [hne]
      exact hval v hv
    · intro u
      rw [hne]
      exact hadj u

theorem buildFold (nodeIds : List String) :
    ∀ (conns p : List Connection) (b : TopoBuild), BuildInv nodeIds p b →
      BuildInv nodeIds (p ++ conns) (conns.foldl (topoStep nodeIds) b) := by
  intro conns
  induction conns with
  | nil =>
    intro p b h
    rw [List.append_nil]
    exact h
  | cons c t ih =>
    intro p b h
    have h2 := ih (p ++ [c]) (topoStep nodeIds b c) (buildStep nodeIds p b c h)
    rw [List.append_assoc] at h2
    exact h2

theorem buildInit (nodeIds : List String) :
    BuildInv nodeIds [] ⟨nodeIds.map fun id => (id, 0), [], [], []⟩ := by
  refine ⟨seedKeys nodeIds, ?_, ?_⟩
  · intro v hv
    show (nodeIds.map fun id => (id, 0)).lookup v = _
    rw [seedLookup nodeIds v hv]
    rfl
  · intro u
    rfl

/-! ### The Kahn worklist loop preserves its invariant -/

theorem kahnVisit_eval (indeg : List (String × Nat)) (queue : List String) (d : String)
    (deg : Nat) (hlook : indeg.lookup d = some deg) (hpos : 0 < deg) :
    kahnVisit (indeg, queue) d =
      (alSet indeg d (deg - 1), if deg - 1 = 0 then queue ++ [d] else queue) := by
  show (match indeg.lookup d with
    | none => ((indeg, queue) : List (String × Nat) × List String)
    | some deg2 =>
      if 0 < deg2 then
        if deg2 - 1 = 0 then (alSet indeg d (deg2 - 1), queue ++ [d])
        else (alSet indeg d (deg2 - 1), queue)
      else (indeg, queue)) =
    (alSet indeg d (deg - 1), if deg - 1 = 0 then queue ++ [d] else queue)
  rw [hlook]
  show (if 0 < deg then
      if deg - 1 = 0 then (alSet indeg d (deg - 1), queue ++ [d])
      else (alSet indeg d (deg - 1), queue)
    else (indeg, queue)) = _
  rw [if_pos hpos]
  split_ifs with h0 <;> rfl

theorem kahnVisitStep (nodeIds : List String) (edges : List Connection)
    (hE : EdgesWf nodeIds edges)
    (acc : List String) (cur : String) (hcur : cur ∉ acc)
    (done : List String) (d : String) (hdmem : d ∈ nodeIds)
    (hedge : (⟨cur, d⟩ : Connection) ∈ edges) (hdd : d ∉ done)
    (indeg : List (String × Nat)) (queue : List String)
    (hmid : KahnMid nodeIds edges acc cur done indeg queue) :
    KahnMid nodeIds edges acc cur (done ++ [d]) (kahnVisit (indeg, queue) d).1
      (kahnVisit (indeg, queue) d).2 := by
  have hlook := hmid.indegVal d hdmem
  have he0mem : (⟨cur, d⟩ : Connection) ∈ edgesTo edges d :=
    List.mem_filter.mpr ⟨hedge, by simp⟩
  have he0cnt : stillCounted acc cur done ⟨cur, d⟩ = true := by
    simp [stillCounted, hcur, hdd]
  have hdegpos : 0 < midInDeg edges acc cur done d :=
    List.length_pos_of_mem (List.mem_filter.mpr ⟨he0mem, he0cnt⟩)
  have hflip : midInDeg edges acc cur done d =
      midInDeg edges acc cur (done ++ [d]) d + 1 := by
    unfold midInDeg
    refine filterFlipLength _ _ _ (hE.nodup.filter _) ⟨cur, d⟩ he0mem he0cnt ?_ ?_
    · simp [stillCounted, hcur]
    · intro b hb hbne
      have hbd : b.destination = d := decide_eq_true_eq.mp (List.mem_filter.mp hb).2
      by_cases hbs : b.source = cur
      · exfalso
        apply hbne
        obtain ⟨s, t⟩ := b
        rw [show s = cur from hbs, show t = d from hbd]
      · simp [stillCounted, hbs]
  have hsame : ∀ v, v ≠ d →
      midInDeg edges acc cur (done ++ [d]) v = midInDeg edges acc cur done v := by
    intro v hv
    unfold midInDeg
    refine congrArg List.length (List.filter_congr ?_)
    intro b hb
    have hbv : b.destination = v := decide_eq_true_eq.mp (List.mem_filter.mp hb).2
    unfold stillCounted
    have hmem : decide (b.destination ∈ done ++ [d]) =
        decide (b.destination ∈ done) := by
      rw [decide_eq_decide, List.mem_append, List.mem_singleton]
      constructor
      · rintro (h | h)
        · exact h
        · exact absurd (hbv ▸ h) hv
      · exact Or.inl
    rw [hmem]
  have hdnotin : d ∉ acc ++ [cur] ∧ d ∉ queue := by
    have hz := hmid.zeroMem d hdmem
    have hno : ¬(d ∈ acc ++ [cur] ∨ d ∈ queue) := by
      intro hmem
      have h0 := hz.mpr hmem
      omega
    exact ⟨fun h => hno (Or.inl h), fun h => hno (Or.inr h)⟩
  have hkv := kahnVisit_eval indeg queue d (midInDeg edges acc cur done d) hlook hdegpos
  by_cases h0 : midInDeg edges acc cur done d - 1 = 0
  · have hgoal : KahnMid nodeIds edges acc cur (done ++ [d])
        (alSet indeg d (midInDeg edges acc cur done d - 1)) (queue ++ [d]) := by
      refine ⟨?_, ?_, ?_, ?_, ?_, ?_, ?_⟩
      · rw [List.nodup_append]
        exact ⟨hmid.queueNodup, List.nodup_singleton d, fun x hx hx2 =>
          hdnotin.2 (by rwa [List.mem_singleton.mp hx2] at hx)⟩
      · intro x hx
        rcases List.mem_append.mp hx with h | h
        · exact hmid.disj x h
        · exact (List.mem_singleton.mp h) ▸ hdnotin.1
      · intro x hx
        rcases List.mem_append.mp hx with h | h
        · exact hmid.queueSub x h
        · exact (List.mem_singleton.mp h) ▸ hdmem
      · rw [alSet_keys]
        exact hmid.indegKeys
      · intro v hv
        by_cases hvd : v = d
        · subst hvd
          rw [alSet_lookup_self _ _ _ (by rw [hmid.indegKeys]; exact hv)]
          have : midInDeg edges acc cur (done ++ [v]) v =
              midInDeg edges acc cur done v - 1 := by omega
          rw [this]
        · rw [alSet_lookup_ne _ _ _ _ hvd, hmid.indegVal v hv, hsame v hvd]
      · intro v hv
        by_cases hvd : v = d
        · subst hvd
          constructor
          · intro _
            exact Or.inr (List.mem_append_right _ (List.mem_singleton.mpr rfl))
          · intro _
            omega
        · rw [hsame v hvd, hmid.zeroMem v hv]
          constructor
          · rintro (h | h)
            · exact Or.inl h
            · exact Or.inr (List.mem_append_left _ h)
          · rintro (h | h)
            · exact Or.inl h
            · rcases List.mem_append.mp h with h2 | h2
              · exact Or.inr h2
              · exact absurd (List.mem_singleton.mp h2) hvd
      · intro c hc hdest
        rcases List.mem_append.mp hdest with h | h
        · exact hmid.queueEdge c hc h
        · have hdc : c.destination = d := List.mem_singleton.mp h
          have hcmem : c ∈ edgesTo edges d :=
            List.mem_filter.mpr ⟨hc, by simp [hdc]⟩
          have hzero : midInDeg edges acc cur (done ++ [d]) d = 0 := by omega
          have hnil : (edgesTo edges d).filter
              (stillCounted acc cur (done ++ [d])) = [] :=
            List.eq_nil_of_length_eq_zero hzero
          have hfalse : stillCounted acc cur (done ++ [d]) c = false := by
            cases hsc : stillCounted acc cur (done ++ [d]) c
            · rfl
            · exfalso
              have : c ∈ (edgesTo edges d).filter
                  (stillCounted acc cur (done ++ [d])) :=
                List.mem_filter.mpr ⟨hcmem, hsc⟩
              rw [hnil] at this
              cases this
          have hcases : c.source ∈ acc ∨
              (c.source = cur ∧ c.destination ∈ done ++ [d]) := by
            have h2 := hfalse
            unfold stillCounted at h2
            rw [Bool.and_eq_false_iff] at h2
            rcases h2 with h2 | h2
            · rw [decide_eq_false_iff_not] at h2
              left
              by_contra hno
              exact h2 hno
            · right
              have h3 : (decide (c.source = cur) &&
                  decide (c.destination ∈ done ++ [d])) = true := by
                cases hb : (decide (c.source = cur) &&
                    decide (c.destination ∈ done ++ [d]))
                · rw [hb] at h2
                  cases h2
                · rfl
              rw [Bool.and_eq_true, decide_eq_true_eq, decide_eq_true_eq] at h3
              exact h3
          rcases hcases with h2 | h2
          · exact List.mem_append_left _ h2
          · exact List.mem_append_right _ (List.mem_singleton.mpr h2.1)
    rw [hkv, if_pos h0]
    exact hgoal
  · have hgoal : KahnMid nodeIds edges acc cur (done ++ [d])
        (alSet indeg d (midInDeg edges acc cur done d - 1)) queue := by
      refine ⟨hmid.queueNodup, hmid.disj, hmid.queueSub, ?_, ?_, ?_, ?_⟩
      · rw [alSet_keys]
        exact hmid.indegKeys
      · intro v hv
        by_cases hvd : v = d
        · subst hvd
          rw [alSet_lookup_self _ _ _ (by rw [hmid.indegKeys]; exact hv)]
          have : midInDeg edges acc cur (done ++ [v]) v =
              midInDeg edges acc cur done v - 1 := by omega
          rw [this]
        · rw [alSet_lookup_ne _ _ _ _ hvd, hmid.indegVal v hv, hsame v hvd]
      · intro v hv
        by_cases hvd : v = d
        · subst hvd
          constructor
          · intro hz
            exfalso
            have : midInDeg edges acc cur (done ++ [v]) v =
                midInDeg edges acc cur done v - 1 := by omega
            omega
          · intro hmem
            exfalso
            rcases hmem with h | h
            · exact hdnotin.1 h
            · exact hdnotin.2 h
        · rw [hsame v hvd]
          exact hmid.zeroMem v hv
      · intro c hc hdest
        exact hmid.queueEdge c hc hdest
    rw [hkv, if_neg h0]
    exact hgoal

theorem kahnVisitFold (nodeIds : List String) (edges : List Connection)
    (hE : EdgesWf nodeIds edges)
    (acc : List String) (cur : String) (hcur : cur ∉ acc)
    (dests : List String)
    (hdests : dests = (edges.filter fun c => decide (c.source = cur)).map
      fun c => c.destination)
    (todo done : List String) (indeg : List (String × Nat)) (queue : List String)
    (hsplit : dests = done ++ todo)
    (hmid : KahnMid nodeIds edges acc cur done indeg queue) :
    KahnMid nodeIds edges acc cur dests (todo.foldl kahnVisit (indeg, queue)).1
      (todo.foldl kahnVisit (indeg, queue)).2 := by
  induction todo generalizing done indeg queue with
  | nil =>
    rw [List.append_nil] at hsplit
    rw [← hsplit] at hmid
    exact hmid
  | cons d todo ih =>
    have hd_in : d ∈ dests := by
      rw [hsplit]
      exact List.mem_append_right _ (List.mem_cons_self d todo)
    have hedge : (⟨cur, d⟩ : Connection) ∈ edges := by
      rw [hdests] at hd_in
      obtain ⟨c, hcf, hcd⟩ := List.mem_map.mp hd_in
      have hcs : c.source = cur := decide_eq_true_eq.mp (List.mem_filter.mp hcf).2
      have hce : c ∈ edges := List.mem_of_mem_filter hcf
      have hceq : (⟨cur, d⟩ : Connection) = c := by
        obtain ⟨s, t⟩ := c
        rw [show s = cur from hcs, show t = d from hcd]
      rw [hceq]
      exact hce
    have hdmem : d ∈ nodeIds := hE.dstMem _ hedge
    have hdnd : dests.Nodup := by
      rw [hdests]
      exact edgesFromNodup edges hE.nodup cur
    have hdd : d ∉ done := by
      rw [hsplit, List.nodup_append] at hdnd
      exact fun hmem => hdnd.2.2 hmem (List.mem_cons_self d todo)
    have hstep := kahnVisitStep nodeIds edges hE acc cur hcur done d hdmem hedge hdd
      indeg queue hmid
    have happ : dests = (done ++ [d]) ++ todo := by
      rw [hsplit, List.append_assoc]
      rfl
    exact ih (done ++ [d]) (kahnVisit (indeg, queue) d).1
      (kahnVisit (indeg, queue) d).2 happ hstep

theorem kahnPop (nodeIds : List String) (edges : List Connection)
    (hE : EdgesWf nodeIds edges)
    (indeg : List (String × Nat)) (cur : String) (rest acc : List String)
    (hinv : KahnInv nodeIds edges indeg (cur :: rest) acc)
    (dests : List String)
    (hdests : dests = (edges.filter fun c => decide (c.source = cur)).map
      fun c => c.destination) :
    KahnInv nodeIds edges (dests.foldl kahnVisit (indeg, rest)).1
      (dests.foldl kahnVisit (indeg, rest)).2 (acc ++ [cur]) := by
  have hcur : cur ∉ acc := hinv.disj cur (List.mem_cons_self cur rest)
  have hcurn : cur ∈ nodeIds := hinv.queueSub cur (List.mem_cons_self cur rest)
  have hqn := List.nodup_cons.mp hinv.queueNodup
  have hmid0 : KahnMid nodeIds edges acc cur [] indeg rest := by
    refine ⟨hqn.2, ?_, ?_, hinv.indegKeys, ?_, ?_, ?_⟩
    · intro x hx
      rw [List.mem_append, List.mem_singleton]
      rintro (h | h)
      · exact hinv.disj x (List.mem_cons_of_mem _ hx) h
      · exact hqn.1 (h ▸ hx)
    · intro x hx
      exact hinv.queueSub x (List.mem_cons_of_mem _ hx)
    · intro v hv
      rw [midInDeg_nil]
      exact hinv.indegVal v hv
    · intro v hv
      rw [midInDeg_nil, hinv.zeroMem v hv, List.mem_append, List.mem_singleton,
        List.mem_cons]
      tauto
    · intro c hc hdest
      rw [List.mem_append, List.mem_singleton]
      exact Or.inl (hinv.queueEdge c hc (List.mem_cons_of_mem _ hdest))
  have hmid := kahnVisitFold nodeIds edges hE acc cur hcur dests hdests
    dests [] indeg rest (by rw [List.nil_append]) hmid0
  have hful : ∀ c ∈ edges, stillCounted acc cur dests c =
      decide (c.source ∉ acc ++ [cur]) := by
    intro c hc
    by_cases hs : c.source = cur
    · have hin : c.destination ∈ dests := by
        rw [hdests]
        exact List.mem_map.mpr ⟨c, List.mem_filter.mpr ⟨hc, by simp [hs]⟩, rfl⟩
      simp [stillCounted, hs, hin, List.mem_append]
    · have h1 : stillCounted acc cur dests c = decide (c.source ∉ acc) := by
        simp [stillCounted, hs]
      rw [h1, decide_eq_decide, List.mem_append, List.mem_singleton]
      constructor
      · intro h hcon
        rcases hcon with h2 | h2
        · exact h h2
        · exact hs h2
      · intro h h2
        exact h (Or.inl h2)
  have hmidfull : ∀ v, midInDeg edges acc cur dests v =
      remInDeg edges (acc ++ [cur]) v := by
    intro v
    unfold midInDeg remInDeg
    refine congrArg List.length (List.filter_congr ?_)
    intro b hb
    exact hful b (List.mem_of_mem_filter hb)
  refine ⟨?_, hmid.queueNodup, hmid.disj, ?_, hmid.queueSub, hmid.indegKeys,
    ?_, ?_, hmid.queueEdge, ?_⟩
  · rw [List.nodup_append]
    exact ⟨hinv.accNodup, List.nodup_singleton cur, fun x hx hx2 =>
      hcur (by rwa [List.mem_singleton.mp hx2] at hx)⟩
  · intro x hx
    rcases List.mem_append.mp hx with h | h
    · exact hinv.accSub x h
    · exact (List.mem_singleton.mp h) ▸ hcurn
  · intro v hv
    have h2 := hmid.indegVal v hv
    rwa [hmidfull v] at h2
  · intro v hv
    have h2 := hmid.zeroMem v hv
    rwa [hmidfull v] at h2
  · intro c hc hdest
    rcases List.mem_append.mp hdest with h | h
    · exact listBefore_append _ _ _ _ (hinv.accEdge c hc h)
    · have hdc : c.destination = cur := List.mem_singleton.mp h
      have hsrc : c.source ∈ acc := hinv.queueEdge c hc (by
        rw [hdc]
        exact List.mem_cons_self _ _)
      obtain ⟨s, t, hst⟩ := List.mem_iff_append.mp hsrc
      refine ⟨s, t, [], ?_⟩
      rw [hst, hdc]

theorem kahnInit (nodeIds : List String) (edges : List Connection)
    (hnd : nodeIds.Nodup) (hE : EdgesWf nodeIds edges)
    (indeg : List (String × Nat))
    (hkeys : indeg.map Prod.fst = nodeIds)
    (hval : ∀ v ∈ nodeIds, indeg.lookup v = some (edgesTo edges v).length) :
    KahnInv nodeIds edges indeg ((indeg.filter fun p => p.2 = 0).map Prod.fst) [] := by
  have hknd : (indeg.map Prod.fst).Nodup := by
    rw [hkeys]
    exact hnd
  have hqmem := filterZeroMem indeg hknd
  refine ⟨List.nodup_nil, ?_, ?_, ?_, ?_, hkeys, ?_, ?_, ?_, ?_⟩
  · exact List.Nodup.sublist ((List.filter_sublist indeg).map Prod.fst) hknd
  · intro x _
    exact List.not_mem_nil x
  · intro x hx
    exact absurd hx (List.not_mem_nil x)
  · intro x hx
    rw [← hkeys]
    exact ((List.filter_sublist indeg).map Prod.fst).mem hx
  · intro v hv
    rw [remInDeg_nil]
    exact hval v hv
  · intro v hv
    rw [remInDeg_nil, hqmem v, hval v hv]
    constructor
    · intro h
      exact Or.inr (by rw [h])
    · rintro (h | h)
      · cases h
      · exact Option.some.inj h
  · intro c hc hdest
    exfalso
    have h0 : indeg.lookup c.destination = some 0 := (hqmem _).mp hdest
    have hlen := hval c.destination (hE.dstMem c hc)
    rw [h0] at hlen
    have hnil : edgesTo edges c.destination = [] :=
      List.eq_nil_of_length_eq_zero (Option.some.inj hlen).symm
    have hcmem : c ∈ edgesTo edges c.destination :=
      List.mem_filter.mpr ⟨hc, by simp⟩
    rw [hnil] at hcmem
    cases hcmem
  · intro c _ hdest
    exact absurd hdest (List.not_mem_nil _)

theorem kahnLoop_spec (nodeIds : List String) (edges : List Connection)
    (adjacency : List (String × List String))
    (hnd : nodeIds.Nodup) (hE : EdgesWf nodeIds edges)
    (hadj : ∀ u, ((adjacency.lookup u).getD []) =
      (edges.filter fun c => decide (c.source = u)).map fun c => c.destination) :
    ∀ (fuel : Nat) (indeg : List (String × Nat)) (queue acc : List String),
      KahnInv nodeIds edges indeg queue acc →
      nodeIds.length ≤ fuel + acc.length →
      (kahnLoop adjacency fuel indeg queue acc).1.Nodup ∧
      (∀ x ∈ (kahnLoop adjacency fuel indeg queue acc).1, x ∈ nodeIds) ∧
      (kahnLoop adjacency fuel indeg queue acc).2.map Prod.fst = nodeIds ∧
      (∀ c ∈ edges, c.destination ∈ (kahnLoop adjacency fuel indeg queue acc).1 →
        ListBefore (kahnLoop adjacency fuel indeg queue acc).1
          c.source c.destination) ∧
      (∀ v ∈ nodeIds, v ∉ (kahnLoop adjacency fuel indeg queue acc).1 →
        ∃ c ∈ edges, c.destination = v ∧
          c.source ∉ (kahnLoop adjacency fuel indeg queue acc).1) := by
  intro fuel
  induction fuel with
  | zero =>
    intro indeg queue acc hinv hlen
    have hfull : ∀ v ∈ nodeIds, v ∈ acc :=
      nodupSubsetFull acc nodeIds hinv.accNodup hnd hinv.accSub (by omega)
    exact ⟨hinv.accNodup, hinv.accSub, hinv.indegKeys, hinv.accEdge,
      fun v hv hnv => absurd (hfull v hv) hnv⟩
  | succ fuel ih =>
    intro indeg queue acc hinv hlen
    cases queue with
    | nil =>
      refine ⟨hinv.accNodup, hinv.accSub, hinv.indegKeys, hinv.accEdge, ?_⟩
      intro v hv hnv
      have hz := hinv.zeroMem v hv
      have hne0 : remInDeg edges acc v ≠ 0 := by
        intro h0
        rcases hz.mp h0 with h | h
        · exact hnv h
        · cases h
      have hpos : 0 <
          ((edgesTo edges v).filter fun c => decide (c.source ∉ acc)).length := by
        have hrfl : remInDeg edges acc v =
            ((edgesTo edges v).filter fun c => decide (c.source ∉ acc)).length := rfl
        omega
      obtain ⟨c, hcmem⟩ := List.exists_mem_of_length_pos hpos
      have hc1 : c ∈ edgesTo edges v := List.mem_of_mem_filter hcmem
      exact ⟨c, List.mem_of_mem_filter hc1,
        decide_eq_true_eq.mp (List.mem_filter.mp hc1).2,
        decide_eq_true_eq.mp (List.mem_filter.mp hcmem).2⟩
    | cons cur rest =>
      have hpop := kahnPop nodeIds edges hE indeg cur rest acc hinv
        ((adjacency.lookup cur).getD []) (hadj cur)
      have hres := ih
        ((((adjacency.lookup cur).getD []).foldl kahnVisit (indeg, rest)).1)
        ((((adjacency.lookup cur).getD []).foldl kahnVisit (indeg, rest)).2)
        (acc ++ [cur]) hpop (by simp [List.length_append]; omega)
      exact hres

/-- `SceneGraph::rebuildTopology` on an acyclic graph: the render order
lists every tracked node exactly once, and the source of every retained
node-to-node connection precedes its destination. -/
theorem rebuildTopology_topo_order (nodeIds : List String) (conns : List Connection)
    (hnd : nodeIds.Nodup) (hcn : conns.Nodup)
    (hwf : ∀ c ∈ conns, c.source ∈ nodeIds ∧
      (c.destination = outputBusId ∨ c.destination ∈ nodeIds))
    (hacyc : AcyclicConns conns) :
    (∀ n ∈ nodeIds, (rebuildTopology nodeIds conns).renderOrder.count n = 1) ∧
    (∀ c ∈ conns, c.destination ≠ outputBusId →
      ListBefore (rebuildTopology nodeIds conns).renderOrder
        c.source c.destination) := by
  by_cases hne : nodeIds = []
  · subst hne
    constructor
    · intro n hn
      cases hn
    · intro c hc _
      exact absurd (hwf c hc).1 (List.not_mem_nil _)
  · have hEwf := nodeEdgesWf nodeIds conns hcn
    have hbuild := buildFold nodeIds conns []
      ⟨nodeIds.map fun id => (id, 0), [], [], []⟩ (buildInit nodeIds)
    rw [List.nil_append] at hbuild
    obtain ⟨hkeys, hval, hadjc⟩ := hbuild
    have hinit := kahnInit nodeIds (nodeEdges nodeIds conns) hnd hEwf
      (conns.foldl (topoStep nodeIds)
        ⟨nodeIds.map fun id => (id, 0), [], [], []⟩).indegree hkeys hval
    have hloop := kahnLoop_spec nodeIds (nodeEdges nodeIds conns)
      (conns.foldl (topoStep nodeIds)
        ⟨nodeIds.map fun id => (id, 0), [], [], []⟩).adjacency hnd hEwf hadjc
      nodeIds.length
      (conns.foldl (topoStep nodeIds)
        ⟨nodeIds.map fun id => (id, 0), [], [], []⟩).indegree
      (((conns.foldl (topoStep nodeIds)
        ⟨nodeIds.map fun id => (id, 0), [], [], []⟩).indegree.filter
          fun p => p.2 = 0).map Prod.fst)
      [] hinit (by simp)
    set k := kahnLoop
      (conns.foldl (topoStep nodeIds)
        ⟨nodeIds.map fun id => (id, 0), [], [], []⟩).adjacency
      nodeIds.length
      (conns.foldl (topoStep nodeIds)
        ⟨nodeIds.map fun id => (id, 0), [], [], []⟩).indegree
      (((conns.foldl (topoStep nodeIds)
        ⟨nodeIds.map fun id => (id, 0), [], [], []⟩).indegree.filter
          fun p => p.2 = 0).map Prod.fst)
      [] with hk
    obtain ⟨hrnd, hrsub, hrkeys, hord, hmissing⟩ := hloop
    have hcomp : ∀ v ∈ nodeIds, v ∈ k.1 := by
      by_contra hno
      push_neg at hno
      obtain ⟨v0, hv0, hv0r⟩ := hno
      have hv0S : v0 ∈ (nodeIds.filter fun v => decide (v ∉ k.1)).toFinset := by
        rw [List.mem_toFinset, List.mem_filter]
        exact ⟨hv0, by simp [hv0r]⟩
      have hpred : ∀ v ∈ (nodeIds.filter fun v => decide (v ∉ k.1)).toFinset,
          ∃ u ∈ (nodeIds.filter fun v => decide (v ∉ k.1)).toFinset,
            EdgeRel conns u v := by
        intro v hv
        rw [List.mem_toFinset, List.mem_filter] at hv
        obtain ⟨hvn, hvr⟩ := hv
        rw [decide_eq_true_eq] at hvr
        obtain ⟨c, hce, hcd, hcs⟩ := hmissing v hvn hvr
        refine ⟨c.source, ?_, ?_, ?_⟩
        · rw [List.mem_toFinset, List.mem_filter]
          exact ⟨hEwf.srcMem c hce, by simp [hcs]⟩
        · have heta : (⟨c.source, c.destination⟩ : Connection) = c := rfl
          rw [hcd] at heta
          rw [heta]
          exact List.mem_of_mem_filter hce
        · intro hbus
          have hprop := decide_eq_true_eq.mp (List.mem_filter.mp hce).2
          exact hprop.2.1 (by rw [hcd, hbus])
      obtain ⟨w, hw⟩ := cycleOfPreds (EdgeRel conns) _ ⟨v0, hv0S⟩ hpred
      exact hacyc w hw
    have htail : ∀ p ∈ k.2, p.1 ∈ k.1 := by
      intro p hp
      apply hcomp
      rw [← hrkeys]
      exact List.mem_map_of_mem Prod.fst hp
    have hre : (rebuildTopology nodeIds conns).renderOrder =
        k.2.foldl (fun acc p => if 0 < p.2 ∧ p.1 ∉ acc then acc ++ [p.1] else acc)
          k.1 := by
      unfold rebuildTopology
      rw [if_neg hne]
    rw [hre, tailFoldNoop k.2 k.1 htail]
    constructor
    · intro n hn
      exact List.count_eq_one_of_mem hrnd (hcomp n hn)
    · intro c hc hcb
      have hcm : c ∈ nodeEdges nodeIds conns := List.mem_filter.mpr ⟨hc, by
        rw [decide_eq_true_eq]
        exact ⟨(hwf c hc).1, hcb, ((hwf c hc).2).resolve_left hcb⟩⟩
      exact hord c hcm (hcomp _ (hEwf.dstMem c hcm))

/-! ### Every mutation preserves graph well-formedness -/

theorem graphWf_withTopology {Node : Type} (g : GraphState Node)
    (hn : g.nodeIds.Nodup) (hc : g.connections.Nodup)
    (hv : ∀ c ∈ g.connections, c.source ∈ g.nodeIds ∧
      (c.destination = outputBusId ∨ c.destination ∈ g.nodeIds)) :
    GraphWf g.withTopology :=
  ⟨hn, hc, hv, rfl⟩

theorem graphWf_addNode {Node : Type} (prep : Node → ℚ → Node) (g : GraphState Node)
    (id : String) (node : Option Node) (h : GraphWf g) :
    GraphWf (addNode prep g id node).2 := by
  cases node with
  | none => exact h
  | some n =>
    simp only [addNode]
    split_ifs with hdup
    · exact h
    · have hfree : id ∉ g.nodes.map Prod.fst := fun hm =>
        hdup ((lookupIsSomeIffMem g.nodes id).mpr hm)
      apply graphWf_withTopology
      · show ((g.nodes ++ [(id, g.nextAddr)]).map Prod.fst).Nodup
        rw [List.map_append, List.nodup_append]
        refine ⟨h.1, List.nodup_singleton _, ?_⟩
        intro x hx hx2
        simp only [List.map_cons, List.map_nil, List.mem_singleton] at hx2
        exact hfree (hx2 ▸ hx)
      · exact h.2.1
      · intro c hc
        obtain ⟨h1, h2⟩ := h.2.2.1 c hc
        constructor
        · show c.source ∈ (g.nodes ++ [(id, g.nextAddr)]).map Prod.fst
          rw [List.map_append]
          exact List.mem_append_left _ h1
        · rcases h2 with h2 | h2
          · exact Or.inl h2
          · right
            show c.destination ∈ (g.nodes ++ [(id, g.nextAddr)]).map Prod.fst
            rw [List.map_append]
            exact List.mem_append_left _ h2

theorem graphWf_removeNode {Node : Type} (g : GraphState Node) (id : String)
    (h : GraphWf g) : GraphWf (removeNode g id) := by
  apply graphWf_withTopology
  · show ((g.nodes.filter fun p => p.1 ≠ id).map Prod.fst).Nodup
    rw [mapFstFilterNe]
    exact List.Nodup.filter _ h.1
  · exact List.Nodup.filter _ h.2.1
  · intro c hc
    have hcmem : c ∈ g.connections := List.mem_of_mem_filter hc
    have hcprop : ¬(c.source = id ∨ c.destination = id) :=
      decide_eq_true_eq.mp (List.mem_filter.mp hc).2
    obtain ⟨h1, h2⟩ := h.2.2.1 c hcmem
    constructor
    · show c.source ∈ (g.nodes.filter fun p => p.1 ≠ id).map Prod.fst
      rw [mapFstFilterNe]
      refine List.mem_filter.mpr ⟨h1, ?_⟩
      rw [decide_eq_true_eq]
      exact fun he => hcprop (Or.inl he)
    · rcases h2 with h2 | h2
      · exact Or.inl h2
      · right
        show c.destination ∈ (g.nodes.filter fun p => p.1 ≠ id).map Prod.fst
        rw [mapFstFilterNe]
        refine List.mem_filter.mpr ⟨h2, ?_⟩
        rw [decide_eq_true_eq]
        exact fun he => hcprop (Or.inr he)

theorem graphWf_connect {Node : Type} (g : GraphState Node) (source destination : String)
    (h : GraphWf g) : GraphWf (connect g source destination).2 := by
  simp only [connect]
  split_ifs with h1 h2 h3
  · exact h
  · exact h
  · exact h
  · apply graphWf_withTopology
    · exact h.1
    · show (g.connections ++ [(⟨source, destination⟩ : Connection)]).Nodup
      rw [List.nodup_append]
      refine ⟨h.2.1, List.nodup_singleton _, ?_⟩
      intro x hx hx2
      rw [List.mem_singleton] at hx2
      exact h3 (hx2 ▸ hx)
    · intro c hc
      rcases List.mem_append.mp hc with hc2 | hc2
      · exact h.2.2.1 c hc2
      · rw [List.mem_singleton] at hc2
        subst hc2
        constructor
        · have hsome : (g.nodes.lookup source).isSome = true := by
            cases hl : g.nodes.lookup source
            · rw [hl] at h1
              exact absurd rfl h1
            · rfl
          exact (lookupIsSomeIffMem g.nodes source).mp hsome
        · by_cases hb : destination = outputBusId
          · exact Or.inl hb
          · right
            have hsome : (g.nodes.lookup destination).isSome = true := by
              cases hl : g.nodes.lookup destination
              · exact absurd ⟨hb, by rw [hl]; rfl⟩ h2
              · rfl
            exact (lookupIsSomeIffMem g.nodes destination).mp hsome

theorem graphWf_disconnect {Node : Type} (g : GraphState Node) (s d : String)
    (h : GraphWf g) : GraphWf (disconnect g s d) := by
  apply graphWf_withTopology
  · exact h.1
  · exact List.Nodup.filter _ h.2.1
  · intro c hc
    exact h.2.2.1 c (List.mem_of_mem_filter hc)

theorem graphWf_applyOp {Node : Type} (prep : Node → ℚ → Node) (g : GraphState Node)
    (op : GraphOp Node) (h : GraphWf g) : GraphWf (applyOp prep g op) := by
  cases op with
  | addNode id n => exact graphWf_addNode prep g id n h
  | removeNode id => exact graphWf_removeNode g id h
  | connect s d => exact graphWf_connect g s d h
  | disconnect s d => exact graphWf_disconnect g s d h

theorem graphWf_applyOps {Node : Type} (prep : Node → ℚ → Node) (g : GraphState Node)
    (ops : List (GraphOp Node)) (h : GraphWf g) : GraphWf (applyOps prep g ops) := by
  induction ops generalizing g with
  | nil => exact h
  | cons op t ih => exact ih (applyOp prep g op) (graphWf_applyOp prep g op h)

/-- **C1.** For every scene graph reached from a well-formed start state by
any sequence of `addNode`/`removeNode`/`connect`/`disconnect`, if the
node-to-node connection relation of the resulting state is acyclic then
the rebuilt `renderOrder_` contains every currently-present node exactly
once, and for every connection `u → v` with `v` not the output-bus
sentinel, `u` appears strictly before `v` in `renderOrder_`. -/
theorem c1_render_order_topological {Node : Type} (prep : Node → ℚ → Node)
    (g0 : GraphState Node) (ops : List (GraphOp Node)) (h0 : GraphWf g0)
    (hacyc : AcyclicConns (applyOps prep g0 ops).connections) :
    (∀ n ∈ (applyOps prep g0 ops).nodeIds,
      (applyOps prep g0 ops).renderOrder.count n = 1) ∧
    (∀ c ∈ (applyOps prep g0 ops).connections, c.destination ≠ outputBusId →
      ListBefore (applyOps prep g0 ops).renderOrder c.source c.destination) := by
  obtain ⟨hn, hc, hv, hro⟩ := graphWf_applyOps prep g0 ops h0
  rw [hro]
  exact rebuildTopology_topo_order _ _ hn hc hv hacyc

/-- Witness for C1: starting from the empty graph `SceneGraph(48000.0, 64)`
and adding one node `"a"`, whose connection set (empty, hence acyclic)
lets the theorem apply: the render order counts `"a"` exactly once and
vacuously orders every connection. -/
theorem c1_render_order_topological_witness :
    GraphWf emptyGraphU ∧
    AcyclicConns (applyOps (fun n _ => n) emptyGraphU
      [GraphOp.addNode "a" (some ())]).connections ∧
    ((∀ n ∈ (applyOps (fun n _ => n) emptyGraphU
        [GraphOp.addNode "a" (some ())]).nodeIds,
      (applyOps (fun n _ => n) emptyGraphU
        [GraphOp.addNode "a" (some ())]).renderOrder.count n = 1) ∧
    (∀ c ∈ (applyOps (fun n _ => n) emptyGraphU
        [GraphOp.addNode "a" (some ())]).connections,
      c.destination ≠ outputBusId →
      ListBefore (applyOps (fun n _ => n) emptyGraphU
        [GraphOp.addNode "a" (some ())]).renderOrder c.source c.destination)) :=
  have hwf : GraphWf emptyGraphU := ⟨by decide, by decide, by decide, by decide⟩
  have hac : AcyclicConns (applyOps (fun n _ => n) emptyGraphU
      [GraphOp.addNode "a" (some ())]).connections := acyclicConnsNil
  ⟨hwf, hac, c1_render_order_topological (fun n _ => n) emptyGraphU
    [GraphOp.addNode "a" (some ())] hwf hac⟩

end DaftCitadel
